import Mathlib

/-!
# A shallow embedding of the diagram-editor core

This file embeds, in Lean 4, the editing engine of the repository: the
geometry helpers (`src/utils/geometry.js`), the entity model
(`src/shapes/Shape.js`, `src/shapes/Connection.js`, `src/model/Diagram.js`),
the command objects (`src/commands/Commands.js`), the history manager
(`src/core/CommandManager.js`), the resize-bounds computation
(`InteractionController.calculateNewBounds` and
`ResizeHandleManager.calculateNewBounds`) and the interaction state machine
(`InteractionController`), and proves or refutes the testable properties of
the specification against these definitions.

Modelling conventions:
* JavaScript numbers are modelled as rationals (`ℚ`); all arithmetic in the
  embedded code is exact on the inputs the claims use.
* A JavaScript object used as a string-keyed record (the `properties`,
  `style` and `metadata` maps) is modelled as an insertion-ordered
  association list `Obj`; property read (`o[k]`) is first-match lookup,
  property write (`o[k] = v`) replaces in place or appends, and
  `Object.assign`/spread folds writes over the source's entries.
* A JavaScript `Map` (the diagram's `shapes` and `connections` collections)
  is modelled the same way (`JMap`); `Map.set` replaces in place or appends,
  `Map.delete` removes the entry, `Map.get` is lookup.
* Object *references* held across containers (a connection's `sourceShape`
  pointing at a shape owned by the diagram) are modelled by the referenced
  shape's id; dereferencing goes through the owning diagram's map.
* DOM work (`render`, `updateElement`, `element`, cursors, preview lines)
  and event-bus emissions have no model-visible effect and are omitted;
  wall-clock data (`Date.now`, `new Date().toISOString`, `generateId`) is
  passed in explicitly where a constructor needs it.
-/

/-- JavaScript `a || b` for an optionally-present numeric option field:
`undefined`, `null` and `0` are falsy, so the default is used for a missing
field and for an explicit `0`. -/
def jsNumOr (v : Option ℚ) (d : ℚ) : ℚ :=
  match v with
  | none => d
  | some x => if x = 0 then d else x

/-- JavaScript `a || b` for an optionally-present string option field:
`undefined`, `null` and the empty string are falsy. -/
def jsStrOr (v : Option String) (d : String) : String :=
  match v with
  | none => d
  | some s => if s = "" then d else s

/-! ## JavaScript objects as insertion-ordered association lists -/

/-- A JavaScript object used as a string-keyed record. Values are kept as
strings: the embedded code never computes with a property or style value,
it only stores, copies and compares them. -/
abbrev Obj := List (String × String)

/-- Property read `o[k]`: first-match lookup, `none` models `undefined`. -/
def objGet (o : Obj) (k : String) : Option String :=
  match o with
  | [] => none
  | (k', v) :: t => if k' = k then some v else objGet t k

/-- Property write `o[k] = v`: replaces the value of an existing key in
place (JS objects keep the original insertion position) or appends. -/
def objSet (o : Obj) (k : String) (v : String) : Obj :=
  match o with
  | [] => [(k, v)]
  | (k', v') :: t => if k' = k then (k, v) :: t else (k', v') :: objSet t k v

/-- `Object.assign(target, source)` (also `{...target, ...source}`): write
every entry of `source` into `target`, in order. -/
def objAssign (target source : Obj) : Obj :=
  source.foldl (fun acc p => objSet acc p.1 p.2) target

/-- The key list of an object. -/
def objKeys (o : Obj) : List String := o.map Prod.fst

/-- Observational equality of two objects: equal lookups on every key of
either side (hence, by `objEqv_iff_forall`, on every key whatsoever). -/
def ObjEqv (a b : Obj) : Prop :=
  ∀ k ∈ objKeys a ++ objKeys b, objGet a k = objGet b k

instance : DecidablePred (fun p : Obj × Obj => ObjEqv p.1 p.2) :=
  fun _ => List.decidableBAll _ _

instance (a b : Obj) : Decidable (ObjEqv a b) :=
  List.decidableBAll _ _

theorem objGet_eq_none_of_not_mem {o : Obj} {k : String}
    (h : k ∉ objKeys o) : objGet o k = none := by
  induction o with
  | nil => rfl
  | cons p t ih =>
    simp only [objKeys, List.map_cons, List.mem_cons] at h
    push_neg at h
    have h1 : ¬ p.1 = k := fun hh => h.1 hh.symm
    simp only [objGet, if_neg h1, ih (by simpa [objKeys] using h.2)]

theorem objEqv_iff_forall {a b : Obj} :
    ObjEqv a b ↔ ∀ k, objGet a k = objGet b k := by
  constructor
  · intro h k
    by_cases hk : k ∈ objKeys a ++ objKeys b
    · exact h k hk
    · simp only [List.mem_append] at hk
      push_neg at hk
      rw [objGet_eq_none_of_not_mem hk.1, objGet_eq_none_of_not_mem hk.2]
  · intro h k _
    exact h k

theorem objEqv_refl (a : Obj) : ObjEqv a a := fun _ _ => rfl

theorem objEqv_of_forall {a b : Obj}
    (h : ∀ k, objGet a k = objGet b k) : ObjEqv a b :=
  objEqv_iff_forall.mpr h

@[simp] theorem objGet_objSet (o : Obj) (k : String) (v : String) (k' : String) :
    objGet (objSet o k v) k' = if k = k' then some v else objGet o k' := by
  induction o with
  | nil =>
    simp only [objSet, objGet]
  | cons p t ih =>
    obtain ⟨pk, pv⟩ := p
    by_cases hpk : pk = k
    · rw [hpk]
      simp only [objSet, if_pos rfl, objGet]
      by_cases hk' : k = k' <;> simp [hk']
    · simp only [objSet, if_neg hpk, objGet]
      by_cases hk' : pk = k'
      · have hkn : ¬ k = k' := fun h => hpk (h.symm ▸ hk'.symm ▸ rfl)
        simp [hk', hkn, ih]
      · simp [hk', ih]

theorem mem_objKeys_iff {o : Obj} {k : String} :
    k ∈ objKeys o ↔ (objGet o k).isSome := by
  induction o with
  | nil => simp [objKeys, objGet]
  | cons p t ih =>
    obtain ⟨pk, pv⟩ := p
    by_cases h : pk = k
    · subst h
      simp [objKeys, objGet]
    · simp only [objKeys, List.map_cons, List.mem_cons, objGet, if_neg h]
      constructor
      · rintro (rfl | hm)
        · exact absurd rfl h
        · exact ih.mp (by simpa [objKeys] using hm)
      · intro hs
        exact Or.inr (by simpa [objKeys] using ih.mpr hs)

/-- Reading through an `Object.assign`: when the source has no duplicate
keys, a key present in the source reads the source's value, any other key
reads the target's value. -/
theorem objGet_objAssign {source : Obj} (hnd : (objKeys source).Nodup)
    (target : Obj) (k : String) :
    objGet (objAssign target source) k =
      ((objGet source k).rec (objGet target k) (fun v => some v) : Option String) := by
  induction source generalizing target with
  | nil => simp [objAssign, objGet]
  | cons p t ih =>
    obtain ⟨pk, pv⟩ := p
    simp only [objKeys, List.map_cons, List.nodup_cons] at hnd
    have ht := ih hnd.2 (objSet target pk pv)
    simp only [objAssign, List.foldl_cons] at *
    rw [ht]
    by_cases hk : pk = k
    · subst hk
      have : objGet t pk = none :=
        objGet_eq_none_of_not_mem (by simpa [objKeys] using hnd.1)
      simp [objGet, this]
    · simp [objGet, hk]

/-! ## JavaScript `Map`s as insertion-ordered association lists -/

/-- A JavaScript `Map` with string keys: an insertion-ordered association
list. The diagram only builds maps through `mapSet`/`mapDelete`, which keep
keys unique, mirroring `Map` semantics. -/
abbrev JMap (α : Type) := List (String × α)

/-- `Map.get(k)` (`undefined` is `none`). -/
def mapGet {α : Type} (m : JMap α) (k : String) : Option α :=
  match m with
  | [] => none
  | (k', v) :: t => if k' = k then some v else mapGet t k

/-- `Map.set(k, v)`: replaces an existing entry in place, else appends. -/
def mapSet {α : Type} (m : JMap α) (k : String) (v : α) : JMap α :=
  match m with
  | [] => [(k, v)]
  | (k', v') :: t => if k' = k then (k, v) :: t else (k', v') :: mapSet t k v

/-- `Map.delete(k)`: removes the entry with key `k`. -/
def mapDelete {α : Type} (m : JMap α) (k : String) : JMap α :=
  match m with
  | [] => []
  | (k', v') :: t => if k' = k then t else (k', v') :: mapDelete t k

/-- Update the value stored under `k` in place (models mutating a field of
the object a map entry points to). Absent keys are untouched. -/
def mapUpdate {α : Type} (m : JMap α) (k : String) (f : α → α) : JMap α :=
  match m with
  | [] => []
  | (k', v') :: t => if k' = k then (k', f v') :: t else (k', v') :: mapUpdate t k f

/-- `Array.from(map.values())`. -/
def mapValues {α : Type} (m : JMap α) : List α := m.map Prod.snd

/-- The key list of a map. -/
def mapKeys {α : Type} (m : JMap α) : List String := m.map Prod.fst

theorem mapGet_eq_none_of_not_mem {α : Type} {m : JMap α} {k : String}
    (h : k ∉ mapKeys m) : mapGet m k = none := by
  induction m with
  | nil => rfl
  | cons p t ih =>
    simp only [mapKeys, List.map_cons, List.mem_cons] at h
    push_neg at h
    have h1 : ¬ p.1 = k := fun hh => h.1 hh.symm
    simp only [mapGet, if_neg h1, ih (by simpa [mapKeys] using h.2)]

@[simp] theorem mapGet_mapSet {α : Type} (m : JMap α) (k : String) (v : α) (k' : String) :
    mapGet (mapSet m k v) k' = if k = k' then some v else mapGet m k' := by
  induction m with
  | nil => simp only [mapSet, mapGet]
  | cons p t ih =>
    obtain ⟨pk, pv⟩ := p
    by_cases hpk : pk = k
    · rw [hpk]
      simp only [mapSet, if_pos rfl, mapGet]
      by_cases hk' : k = k' <;> simp [hk']
    · simp only [mapSet, if_neg hpk, mapGet]
      by_cases hk' : pk = k'
      · have hkn : ¬ k = k' := fun h => hpk (hk'.trans h.symm)
        simp [hk', hkn, ih]
      · simp [hk', ih]

/-- Deleting one key never changes the lookup of another key. -/
theorem mapGet_mapDelete_ne {α : Type} (m : JMap α) {k k' : String} (h : k ≠ k') :
    mapGet (mapDelete m k) k' = mapGet m k' := by
  induction m with
  | nil => rfl
  | cons p t ih =>
    obtain ⟨pk, pv⟩ := p
    by_cases hpk : pk = k
    · have hne : ¬ pk = k' := fun hh => h (hpk ▸ hh)
      rw [mapDelete, if_pos hpk, mapGet, if_neg hne]
    · rw [mapDelete, if_neg hpk, mapGet, mapGet, ih]

/-- Deleting a key that was absent is the identity. -/
theorem mapDelete_of_not_mem {α : Type} {m : JMap α} {k : String}
    (h : mapGet m k = none) : mapDelete m k = m := by
  induction m with
  | nil => rfl
  | cons p t ih =>
    obtain ⟨pk, pv⟩ := p
    rw [mapGet] at h
    by_cases hpk : pk = k
    · rw [if_pos hpk] at h
      exact absurd h (by simp)
    · rw [if_neg hpk] at h
      rw [mapDelete, if_neg hpk, ih h]

/-- Setting a fresh key and deleting it again is the identity. -/
theorem mapDelete_mapSet_fresh {α : Type} {m : JMap α} {k : String} (v : α)
    (h : mapGet m k = none) : mapDelete (mapSet m k v) k = m := by
  induction m with
  | nil => simp [mapSet, mapDelete]
  | cons p t ih =>
    obtain ⟨pk, pv⟩ := p
    rw [mapGet] at h
    by_cases hpk : pk = k
    · rw [if_pos hpk] at h
      exact absurd h (by simp)
    · rw [if_neg hpk] at h
      rw [mapSet, if_neg hpk, mapDelete, if_neg hpk, ih h]

@[simp] theorem mapGet_mapUpdate {α : Type} (m : JMap α) (k : String) (f : α → α) (k' : String) :
    mapGet (mapUpdate m k f) k' =
      if k = k' then (mapGet m k).map f else mapGet m k' := by
  induction m with
  | nil => simp [mapUpdate, mapGet]
  | cons p t ih =>
    obtain ⟨pk, pv⟩ := p
    by_cases hpk : pk = k
    · rw [hpk]
      simp only [mapUpdate, if_pos rfl, mapGet]
      by_cases hk' : k = k' <;> simp [hk']
    · simp only [mapUpdate, if_neg hpk, mapGet]
      by_cases hk' : pk = k'
      · have hkn : ¬ k = k' := fun h => hpk (hk'.trans h.symm)
        simp [hk', hkn]
      · simp [hk', ih]

/-! ## Geometry primitives (`src/utils/geometry.js`) -/

/-- `Point` (geometry.js). -/
structure JPoint where
  x : ℚ
  y : ℚ
deriving DecidableEq, Repr

/-- `Rectangle` (geometry.js). -/
structure JRect where
  x : ℚ
  y : ℚ
  width : ℚ
  height : ℚ
deriving DecidableEq, Repr

namespace JRect

def left (r : JRect) : ℚ := r.x
def right (r : JRect) : ℚ := r.x + r.width
def top (r : JRect) : ℚ := r.y
def bottom (r : JRect) : ℚ := r.y + r.height
def centerX (r : JRect) : ℚ := r.x + r.width / 2
def centerY (r : JRect) : ℚ := r.y + r.height / 2
def center (r : JRect) : JPoint := ⟨r.centerX, r.centerY⟩

/-- `Rectangle.getConnectionPoint(side)`. -/
def getConnectionPoint (r : JRect) (side : String) : JPoint :=
  if side = "top" then ⟨r.centerX, r.top⟩
  else if side = "right" then ⟨r.right, r.centerY⟩
  else if side = "bottom" then ⟨r.centerX, r.bottom⟩
  else if side = "left" then ⟨r.left, r.centerY⟩
  else r.center

/-- Squared Euclidean distance. `Point.distanceTo` takes a square root; the
nearest-point search below only *compares* distances with `<`, and
`Real.sqrt` is strictly monotone on squares of rationals, so comparing
squared distances selects exactly the same side as the source. -/
def distSq (a b : JPoint) : ℚ :=
  (a.x - b.x) * (a.x - b.x) + (a.y - b.y) * (a.y - b.y)

/-- `Rectangle.getNearestConnectionPoint(point)`: iterate the four sides in
the object-literal order `top, right, bottom, left`, keeping the first
strictly-smaller distance (`minDist` starts at `Infinity`, so the first
side always loads). Returns the winning side and its connection point. -/
def getNearestConnectionPoint (r : JRect) (p : JPoint) : String × JPoint :=
  let candidates := [("top", r.getConnectionPoint "top"),
                     ("right", r.getConnectionPoint "right"),
                     ("bottom", r.getConnectionPoint "bottom"),
                     ("left", r.getConnectionPoint "left")]
  let best := candidates.foldl
    (fun (acc : Option (String × JPoint × ℚ)) c =>
      let d := distSq p c.2
      match acc with
      | none => some (c.1, c.2, d)
      | some b => if d < b.2.2 then some (c.1, c.2, d) else acc)
    none
  match best with
  | some (side, pt, _) => (side, pt)
  | none => ("top", r.getConnectionPoint "top")

end JRect

/-- `snapToGrid(value, gridSize)` — `Math.round(value / g) * g` with JS
round-half-up. -/
def snapToGrid (value : ℚ) (gridSize : ℚ) : ℚ :=
  ⌊value / gridSize + 1/2⌋ * gridSize

/-! ## `Shape` (`src/shapes/Shape.js`) -/

/-- The option bag accepted by the `Shape` constructor — exactly the fields
the constructor reads. An absent field is `none` (`undefined`). -/
structure ShapeOptions where
  id : Option String := none
  type : Option String := none
  diagramType : Option String := none
  x : Option ℚ := none
  y : Option ℚ := none
  width : Option ℚ := none
  height : Option ℚ := none
  name : Option String := none
  stereotype : Option String := none
  properties : Option Obj := none
  style : Option Obj := none
  minWidth : Option ℚ := none
  minHeight : Option ℚ := none
  resizable : Option Bool := none

/-- A diagram shape. `element` (the DOM node) and `eventBus` are omitted;
they carry no model state. -/
structure Shape where
  id : String
  type : String
  diagramType : String
  x : ℚ
  y : ℚ
  width : ℚ
  height : ℚ
  properties : Obj
  style : Obj
  selected : Bool
  hovered : Bool
  editing : Bool
  minWidth : ℚ
  minHeight : ℚ
  resizable : Bool
deriving Repr, DecidableEq

namespace Shape

/-- The `Shape` constructor. `freshId` stands for the `generateId('shape')`
fallback used when `options.id` is falsy. -/
def new (freshId : String) (o : ShapeOptions) : Shape where
  id := jsStrOr o.id freshId
  type := jsStrOr o.type "rectangle"
  diagramType := jsStrOr o.diagramType "generic"
  x := jsNumOr o.x 0
  y := jsNumOr o.y 0
  width := jsNumOr o.width 120
  height := jsNumOr o.height 60
  properties :=
    objAssign [("name", jsStrOr o.name ""), ("stereotype", jsStrOr o.stereotype "")]
      (o.properties.getD [])
  style :=
    objAssign [("fill", "#FFFFFF"), ("stroke", "#333333"), ("strokeWidth", "1.5")]
      (o.style.getD [])
  selected := false
  hovered := false
  editing := false
  minWidth := jsNumOr o.minWidth 40
  minHeight := jsNumOr o.minHeight 30
  resizable := o.resizable ≠ some false

/-- `Shape.getBounds()`. -/
def getBounds (s : Shape) : JRect := ⟨s.x, s.y, s.width, s.height⟩

/-- `Shape.setPosition(x, y)`. -/
def setPosition (s : Shape) (x y : ℚ) : Shape := { s with x := x, y := y }

/-- `Shape.setSize(width, height)` — clamps to the shape's minimums. -/
def setSize (s : Shape) (width height : ℚ) : Shape :=
  { s with width := max width s.minWidth, height := max height s.minHeight }

/-- `Shape.move(dx, dy)`. -/
def move (s : Shape) (dx dy : ℚ) : Shape := { s with x := s.x + dx, y := s.y + dy }

/-- `Shape.containsPoint(point)`. -/
def containsPoint (s : Shape) (p : JPoint) : Bool :=
  s.getBounds.left ≤ p.x && p.x ≤ s.getBounds.right &&
    s.getBounds.top ≤ p.y && p.y ≤ s.getBounds.bottom

/-- `Shape.getConnectionPoints()` — the object literal keyed
`top/right/bottom/left/center`, read back as a lookup. -/
def getConnectionPoints (s : Shape) (key : String) : Option JPoint :=
  let b := s.getBounds
  if key = "top" then some (b.getConnectionPoint "top")
  else if key = "right" then some (b.getConnectionPoint "right")
  else if key = "bottom" then some (b.getConnectionPoint "bottom")
  else if key = "left" then some (b.getConnectionPoint "left")
  else if key = "center" then some b.center
  else none

/-- `Shape.getNearestConnectionPoint(point)`. -/
def getNearestConnectionPoint (s : Shape) (p : JPoint) : String × JPoint :=
  s.getBounds.getNearestConnectionPoint p

/-- `Shape.setProperty(key, value)`. -/
def setProperty (s : Shape) (key value : String) : Shape :=
  { s with properties := objSet s.properties key value }

/-- `Shape.setStyle(style)` — `Object.assign(this.style, style)`. -/
def setStyle (s : Shape) (style : Obj) : Shape :=
  { s with style := objAssign s.style style }

end Shape

/-- The serialized form of a shape (`Shape.toJSON`). -/
structure ShapeJSON where
  id : String
  type : String
  diagramType : String
  x : ℚ
  y : ℚ
  width : ℚ
  height : ℚ
  properties : Obj
  style : Obj
deriving Repr, DecidableEq

/-- `Shape.toJSON()` — spread-copies of `properties` and `style` are the
lists themselves under value semantics. -/
def Shape.toJSON (s : Shape) : ShapeJSON where
  id := s.id
  type := s.type
  diagramType := s.diagramType
  x := s.x
  y := s.y
  width := s.width
  height := s.height
  properties := s.properties
  style := s.style

/-- `Shape.fromJSON(data)` — `new Shape(data)`: the serialized record is
passed as the constructor's option bag. The serialized form has no `name`,
`stereotype`, `minWidth`, `minHeight` or `resizable` fields, so those
options are absent. -/
def Shape.fromJSON (freshId : String) (data : ShapeJSON) : Shape :=
  Shape.new freshId
    { id := some data.id
      type := some data.type
      diagramType := some data.diagramType
      x := some data.x
      y := some data.y
      width := some data.width
      height := some data.height
      properties := some data.properties
      style := some data.style }

/-! ## `Connection` (`src/shapes/Connection.js`) -/

/-- A connection endpoint descriptor `{shapeId, anchor}`. -/
structure Endpoint where
  shapeId : Option String
  anchor : String
deriving Repr, DecidableEq

/-- The option bag read by the `Connection` constructor. -/
structure ConnectionOptions where
  id : Option String := none
  type : Option String := none
  diagramType : Option String := none
  sourceId : Option String := none
  sourceAnchor : Option String := none
  targetId : Option String := none
  targetAnchor : Option String := none
  waypoints : Option (List JPoint) := none
  label : Option String := none
  properties : Option Obj := none
  style : Option Obj := none

/-- A diagram connection. The `sourceShape`/`targetShape` object references
(set by the diagram) are modelled by the id of the referenced shape
(`none` models `null`/`undefined`). -/
structure Connection where
  id : String
  type : String
  diagramType : String
  source : Endpoint
  target : Endpoint
  waypoints : List JPoint
  properties : Obj
  style : Obj
  selected : Bool
  hovered : Bool
  sourceShape : Option String
  targetShape : Option String
deriving Repr, DecidableEq

namespace Connection

/-- The `Connection` constructor; `freshId` models `generateId('conn')`. -/
def new (freshId : String) (o : ConnectionOptions) : Connection where
  id := jsStrOr o.id freshId
  type := jsStrOr o.type "association"
  diagramType := jsStrOr o.diagramType "generic"
  source := { shapeId := match o.sourceId with
                         | none => none
                         | some s => if s = "" then none else some s,
              anchor := jsStrOr o.sourceAnchor "auto" }
  target := { shapeId := match o.targetId with
                         | none => none
                         | some s => if s = "" then none else some s,
              anchor := jsStrOr o.targetAnchor "auto" }
  waypoints := o.waypoints.getD []
  properties := objAssign [("label", jsStrOr o.label "")] (o.properties.getD [])
  style :=
    objAssign [("stroke", "#333333"), ("strokeWidth", "1.5"), ("lineStyle", "solid"),
               ("sourceArrow", "none"), ("targetArrow", "filled")]
      (o.style.getD [])
  selected := false
  hovered := false
  sourceShape := none
  targetShape := none

/-- `Connection.getStartPoint()`. The method dereferences
`this.sourceShape`/`this.targetShape`; the dereferenced shape objects are
passed in explicitly (`none` when the reference is `null`). -/
def getStartPoint (c : Connection) (src tgt : Option Shape) : JPoint :=
  match src with
  | none => ⟨0, 0⟩
  | some s =>
    if c.source.anchor = "auto" then
      let targetCenter : JPoint :=
        match tgt with
        | some t => t.getBounds.center
        | none => match c.waypoints with
                  | p :: _ => p
                  | [] => ⟨0, 0⟩
      (s.getNearestConnectionPoint targetCenter).2
    else
      (s.getConnectionPoints c.source.anchor).getD ⟨0, 0⟩

/-- `Connection.getEndPoint()`. -/
def getEndPoint (c : Connection) (src tgt : Option Shape) : JPoint :=
  match tgt with
  | none => ⟨0, 0⟩
  | some t =>
    if c.target.anchor = "auto" then
      let sourceCenter : JPoint :=
        match src with
        | some s => s.getBounds.center
        | none => match c.waypoints.getLast? with
                  | some p => p
                  | none => ⟨0, 0⟩
      (t.getNearestConnectionPoint sourceCenter).2
    else
      (t.getConnectionPoints c.target.anchor).getD ⟨0, 0⟩

/-- `Connection.setProperty(key, value)`. -/
def setProperty (c : Connection) (key value : String) : Connection :=
  { c with properties := objSet c.properties key value }

end Connection

/-- The serialized form of a connection (`Connection.toJSON`): it stores
`source`/`target` *descriptor objects*, not `sourceId`/`targetId` fields. -/
structure ConnectionJSON where
  id : String
  type : String
  diagramType : String
  source : Endpoint
  target : Endpoint
  waypoints : List JPoint
  properties : Obj
  style : Obj
deriving Repr, DecidableEq

/-- `Connection.toJSON()`. -/
def Connection.toJSON (c : Connection) : ConnectionJSON where
  id := c.id
  type := c.type
  diagramType := c.diagramType
  source := c.source
  target := c.target
  waypoints := c.waypoints
  properties := c.properties
  style := c.style

/-- `Connection.fromJSON(data)` — `new Connection(data)` followed by the
waypoint rebuild. The constructor reads `options.sourceId`,
`options.sourceAnchor`, `options.targetId`, `options.targetAnchor`; the
serialized record carries `source`/`target` descriptor objects instead, and
the constructor never reads those, so the corresponding options are absent
(`undefined`). `label` is likewise absent, but `properties` carries it. -/
def Connection.fromJSON (freshId : String) (data : ConnectionJSON) : Connection :=
  let c := Connection.new freshId
    { id := some data.id
      type := some data.type
      diagramType := some data.diagramType
      waypoints := some data.waypoints
      properties := some data.properties
      style := some data.style }
  { c with waypoints := data.waypoints }

/-! ## `Diagram` (`src/model/Diagram.js`) -/

/-- Viewport state `{x, y, zoom}`. -/
structure Viewport where
  x : ℚ
  y : ℚ
  zoom : ℚ
deriving Repr, DecidableEq

/-- The viewport option object (`options.viewport?.x || 0` reads an
optionally-present field of an optionally-present object). -/
structure ViewportOptions where
  x : Option ℚ := none
  y : Option ℚ := none
  zoom : Option ℚ := none

/-- The option bag read by the `Diagram` constructor. -/
structure DiagramOptions where
  id : Option String := none
  type : Option String := none
  name : Option String := none
  created : Option String := none
  modified : Option String := none
  viewport : Option ViewportOptions := none
  metadata : Option Obj := none

/-- A diagram: two keyed collections plus viewport and metadata. -/
structure Diagram where
  id : String
  type : String
  name : String
  created : String
  modified : String
  shapes : JMap Shape
  connections : JMap Connection
  viewport : Viewport
  metadata : Obj
deriving Repr

/-- JS truthiness of an optionally-`null` string (used for
`if (connection.source.shapeId)`): `null`/`undefined` and `""` are falsy. -/
def jsTruthyStr (v : Option String) : Option String :=
  match v with
  | none => none
  | some s => if s = "" then none else some s

namespace Diagram

/-- The `Diagram` constructor; `freshId` models `generateId('diagram')` and
`now` models `new Date().toISOString()`. -/
def new (freshId now : String) (o : DiagramOptions) : Diagram where
  id := jsStrOr o.id freshId
  type := jsStrOr o.type "sequence"
  name := jsStrOr o.name "Untitled Diagram"
  created := jsStrOr o.created now
  modified := jsStrOr o.modified now
  shapes := []
  connections := []
  viewport :=
    { x := jsNumOr (o.viewport.bind ViewportOptions.x) 0
      y := jsNumOr (o.viewport.bind ViewportOptions.y) 0
      zoom := jsNumOr (o.viewport.bind ViewportOptions.zoom) 1 }
  metadata := objAssign [("author", ""), ("version", "1.0")] (o.metadata.getD [])

/-- `Diagram.addShape(shape)`: stamps the diagram type onto the shape and
stores it under its id. The `modified` timestamp update is wall-clock data
and is not modelled (no claim observes it). -/
def addShape (d : Diagram) (s : Shape) : Diagram :=
  { d with shapes := mapSet d.shapes s.id { s with diagramType := d.type } }

/-- `Diagram.removeShape(shapeId)`: deletes the entry when present. -/
def removeShape (d : Diagram) (shapeId : String) : Diagram :=
  match mapGet d.shapes shapeId with
  | some _ => { d with shapes := mapDelete d.shapes shapeId }
  | none => d

/-- `Diagram.getShape(shapeId)`. -/
def getShape (d : Diagram) (shapeId : String) : Option Shape :=
  mapGet d.shapes shapeId

/-- Re-resolve a connection's shape references against the diagram's
current shape collection, exactly as `Diagram.addConnection` does: each
reference is (re)assigned only when the descriptor's `shapeId` is truthy,
and receives whatever `shapes.get(...)` returns (`undefined` when the
shape is absent). -/
def linkConnection (shapes : JMap Shape) (c : Connection) : Connection :=
  let c1 := match jsTruthyStr c.source.shapeId with
            | some sid => { c with sourceShape := (mapGet shapes sid).map Shape.id }
            | none => c
  match jsTruthyStr c1.target.shapeId with
  | some tid => { c1 with targetShape := (mapGet shapes tid).map Shape.id }
  | none => c1

/-- `Diagram.addConnection(connection)`: stamps the diagram type, resolves
the `sourceShape`/`targetShape` references from the shape collection, and
stores the connection under its id — whether or not the endpoints
resolved. -/
def addConnection (d : Diagram) (c : Connection) : Diagram :=
  let c2 := linkConnection d.shapes { c with diagramType := d.type }
  { d with connections := mapSet d.connections c2.id c2 }

/-- `Diagram.removeConnection(connectionId)`. -/
def removeConnection (d : Diagram) (connectionId : String) : Diagram :=
  match mapGet d.connections connectionId with
  | some _ => { d with connections := mapDelete d.connections connectionId }
  | none => d

/-- `Diagram.getConnection(connectionId)`. -/
def getConnection (d : Diagram) (connectionId : String) : Option Connection :=
  mapGet d.connections connectionId

/-- `Diagram.getConnections()`. -/
def getConnections (d : Diagram) : List Connection := mapValues d.connections

/-- `Diagram.getConnectionsForShape(shapeId)`: the connections whose
source or target descriptor carries this shape id. -/
def getConnectionsForShape (d : Diagram) (shapeId : String) : List Connection :=
  d.getConnections.filter
    (fun c => decide (c.source.shapeId = some shapeId ∨ c.target.shapeId = some shapeId))

end Diagram

/-- The serialized form of a diagram (`Diagram.toJSON`). -/
structure DiagramJSON where
  id : String
  type : String
  name : String
  created : String
  modified : String
  viewport : Viewport
  metadata : Obj
  shapes : List ShapeJSON
  connections : List ConnectionJSON
deriving Repr, DecidableEq

/-- `Diagram.toJSON()`. -/
def Diagram.toJSON (d : Diagram) : DiagramJSON where
  id := d.id
  type := d.type
  name := d.name
  created := d.created
  modified := d.modified
  viewport := d.viewport
  metadata := d.metadata
  shapes := (mapValues d.shapes).map Shape.toJSON
  connections := (mapValues d.connections).map Connection.toJSON

/-- `Diagram.fromJSON(data, shapeFactory, connectionFactory)`: rebuild the
header through the constructor, then restore shapes through the factory,
then restore connections through the factory, linking each endpoint whose
descriptor id is truthy against the restored shape collection. -/
def Diagram.fromJSON (freshId now : String) (data : DiagramJSON)
    (shapeFactory : ShapeJSON → Shape)
    (connectionFactory : ConnectionJSON → Connection) : Diagram :=
  let base := Diagram.new freshId now
    { id := some data.id
      type := some data.type
      name := some data.name
      created := some data.created
      modified := some data.modified
      viewport := some { x := some data.viewport.x, y := some data.viewport.y,
                         zoom := some data.viewport.zoom }
      metadata := some data.metadata }
  let shapes := data.shapes.foldl
    (fun m sd => let s := shapeFactory sd; mapSet m s.id s) []
  let connections := data.connections.foldl
    (fun m cd =>
      let c := Diagram.linkConnection shapes (connectionFactory cd)
      mapSet m c.id c) []
  { base with shapes := shapes, connections := connections }

/-! ## Observational equality of diagram states

The spec's inverse law compares "the same shape/connection set, geometry,
properties" — it does not observe transient UI flags (`selected`,
`hovered`, `editing`), the `diagramType` stamp, the resolved
`sourceShape`/`targetShape` object references, timestamps, or entry order
inside the keyed collections. -/

/-- Shapes observed through id-keyed lookup: geometry, properties, style. -/
def ShapeObsEq (a b : Shape) : Prop :=
  a.x = b.x ∧ a.y = b.y ∧ a.width = b.width ∧ a.height = b.height ∧
    ObjEqv a.properties b.properties ∧ ObjEqv a.style b.style

instance (a b : Shape) : Decidable (ShapeObsEq a b) := by
  unfold ShapeObsEq; infer_instance

/-- Connections observed through id-keyed lookup: endpoint descriptors,
waypoints, properties, style. -/
def ConnObsEq (a b : Connection) : Prop :=
  a.source = b.source ∧ a.target = b.target ∧ a.waypoints = b.waypoints ∧
    ObjEqv a.properties b.properties ∧ ObjEqv a.style b.style

instance (a b : Connection) : Decidable (ConnObsEq a b) := by
  unfold ConnObsEq; infer_instance

/-- Lifted to optional lookup results: both absent, or both present and
observationally equal. -/
def ShapeOptObsEq : Option Shape → Option Shape → Prop
  | none, none => True
  | some a, some b => ShapeObsEq a b
  | some _, none => False
  | none, some _ => False

instance : ∀ a b : Option Shape, Decidable (ShapeOptObsEq a b)
  | none, none => isTrue trivial
  | some _, some _ => by unfold ShapeOptObsEq; infer_instance
  | some _, none => isFalse id
  | none, some _ => isFalse id

/-- Lifted to optional lookup results. -/
def ConnOptObsEq : Option Connection → Option Connection → Prop
  | none, none => True
  | some a, some b => ConnObsEq a b
  | some _, none => False
  | none, some _ => False

instance : ∀ a b : Option Connection, Decidable (ConnOptObsEq a b)
  | none, none => isTrue trivial
  | some _, some _ => by unfold ConnOptObsEq; infer_instance
  | some _, none => isFalse id
  | none, some _ => isFalse id

/-- Observational equality of two diagram states: on every shape id of
either side the lookups agree observationally, and likewise for
connection ids. (Restricting to the finitely many stored keys keeps the
predicate decidable; `diagObsEq_of_forall` feeds it from unbounded
pointwise agreement.) -/
def DiagObsEq (d1 d2 : Diagram) : Prop :=
  (∀ k ∈ mapKeys d1.shapes ++ mapKeys d2.shapes,
    ShapeOptObsEq (mapGet d1.shapes k) (mapGet d2.shapes k)) ∧
  (∀ k ∈ mapKeys d1.connections ++ mapKeys d2.connections,
    ConnOptObsEq (mapGet d1.connections k) (mapGet d2.connections k))

instance (d1 d2 : Diagram) : Decidable (DiagObsEq d1 d2) := by
  unfold DiagObsEq; infer_instance

theorem diagObsEq_of_forall {d1 d2 : Diagram}
    (hs : ∀ k, ShapeOptObsEq (mapGet d1.shapes k) (mapGet d2.shapes k))
    (hc : ∀ k, ConnOptObsEq (mapGet d1.connections k) (mapGet d2.connections k)) :
    DiagObsEq d1 d2 :=
  ⟨fun k _ => hs k, fun k _ => hc k⟩

theorem shapeObsEq_refl (s : Shape) : ShapeObsEq s s :=
  ⟨rfl, rfl, rfl, rfl, objEqv_refl _, objEqv_refl _⟩

theorem connObsEq_refl (c : Connection) : ConnObsEq c c :=
  ⟨rfl, rfl, rfl, objEqv_refl _, objEqv_refl _⟩

theorem shapeOptObsEq_refl : ∀ o : Option Shape, ShapeOptObsEq o o
  | none => trivial
  | some s => shapeObsEq_refl s

theorem connOptObsEq_refl : ∀ o : Option Connection, ConnOptObsEq o o
  | none => trivial
  | some c => connObsEq_refl c

/-! ## The command objects (`src/commands/Commands.js`)

Each command class becomes a variant carrying the constructor arguments;
object references to shapes and connections owned by the diagram are
modelled by their ids (`MoveShapesCommand` holds the moved shapes' ids,
`ResizeShapeCommand` the resized shape's id). `RemoveShapeCommand`'s
mutable `relatedConnections` field is part of the variant and is rewritten
by `execute`. `UpdatePropertyCommand`'s element may be a shape or a
connection (both have `setProperty`). `UpdateStyleCommand` calls
`element.setStyle`, which only `Shape` defines — a connection-targeted
`UpdateStyleCommand.execute()` throws a `TypeError`, so successful
executions target shapes and the variant carries a shape id. -/

/-- A reference to a property-bearing element: a shape or a connection. -/
inductive ElemRef where
  | shapeRef (id : String)
  | connRef (id : String)
deriving Repr, DecidableEq

/-- The command variants of `Commands.js`. -/
inductive Cmd where
  | addShape (shape : Shape)
  | removeShape (shape : Shape) (relatedConnections : List Connection)
  | moveShapes (shapeIds : List String) (dx dy : ℚ)
  | resizeShape (shapeId : String) (oldBounds newBounds : JRect)
  | addConnection (connection : Connection)
  | removeConnection (connection : Connection)
  | updateProperty (element : ElemRef) (property oldValue newValue : String)
  | updateStyle (shapeId : String) (oldStyle newStyle : Obj)

/-- `element.setProperty(property, value)` dispatched on the element kind.
The referenced object is owned by the diagram, so the update lands in the
corresponding collection. -/
def applyElemSetProperty (e : ElemRef) (property value : String) (d : Diagram) : Diagram :=
  match e with
  | .shapeRef i =>
    { d with shapes := mapUpdate d.shapes i (fun s => s.setProperty property value) }
  | .connRef i =>
    { d with connections := mapUpdate d.connections i (fun c => c.setProperty property value) }

/-- `command.execute()`. Returns the updated command alongside the updated
diagram because `RemoveShapeCommand.execute` overwrites its
`relatedConnections` field. -/
def Cmd.exec : Cmd → Diagram → Cmd × Diagram
  | .addShape s, d => (.addShape s, d.addShape s)
  | .removeShape s _, d =>
    let rel := d.getConnectionsForShape s.id
    let d1 := rel.foldl (fun dd c => dd.removeConnection c.id) d
    (.removeShape s rel, d1.removeShape s.id)
  | .moveShapes ids dx dy, d =>
    (.moveShapes ids dx dy,
     { d with shapes := ids.foldl (fun m i => mapUpdate m i (fun s => s.move dx dy)) d.shapes })
  | .resizeShape sid oldB newB, d =>
    (.resizeShape sid oldB newB,
     { d with shapes := mapUpdate d.shapes sid (fun s => (s.setPosition newB.x newB.y).setSize newB.width newB.height) })
  | .addConnection c, d => (.addConnection c, d.addConnection c)
  | .removeConnection c, d => (.removeConnection c, d.removeConnection c.id)
  | .updateProperty e p oldV newV, d =>
    (.updateProperty e p oldV newV, applyElemSetProperty e p newV d)
  | .updateStyle sid oldS newS, d =>
    (.updateStyle sid oldS newS,
     { d with shapes := mapUpdate d.shapes sid (fun s => s.setStyle newS) })

/-- `command.undo()`. -/
def Cmd.undoOn : Cmd → Diagram → Diagram
  | .addShape s, d => d.removeShape s.id
  | .removeShape s rel, d => rel.foldl (fun dd c => dd.addConnection c) (d.addShape s)
  | .moveShapes ids dx dy, d =>
    { d with shapes := ids.foldl (fun m i => mapUpdate m i (fun s => s.move (-dx) (-dy))) d.shapes }
  | .resizeShape sid oldB _, d =>
    { d with shapes := mapUpdate d.shapes sid (fun s => (s.setPosition oldB.x oldB.y).setSize oldB.width oldB.height) }
  | .addConnection c, d => d.removeConnection c.id
  | .removeConnection c, d => d.addConnection c
  | .updateProperty e p oldV _, d => applyElemSetProperty e p oldV d
  | .updateStyle sid oldS _, d =>
    { d with shapes := mapUpdate d.shapes sid (fun s => s.setStyle oldS) }

/-- `undo()` right after `execute()`, with the state `execute` left in the
command (`RemoveShapeCommand.relatedConnections`) flowing into `undo`. -/
def execThenUndo (c : Cmd) (d : Diagram) : Diagram :=
  let r := c.exec d
  r.1.undoOn r.2

/-! ## `CommandManager` (`src/core/CommandManager.js`)

The history manager is generic in the commands it runs: a command is a
pair of state transformers over an abstract model state `σ`. A transformer
returns `Except.error m` when the command body throws — the error carries
the (possibly partially mutated) model state `m`, since a throwing JS
method may have mutated before throwing. Stack top is the list *end*
(JS `push`/`pop` work at the end; `shift`, the capacity eviction, removes
the head, i.e. the bottom). -/

/-- A command as the manager sees it: `execute()`, `undo()`, description. -/
structure CMCommand (σ : Type) where
  execF : σ → Except σ σ
  undoF : σ → Except σ σ
  descr : String

/-- `this.maxHistory = 50`. -/
def maxHistory : ℕ := 50

/-- The manager's state: the two stacks plus the model they act on. -/
structure CMState (σ : Type) where
  undoStack : List (CMCommand σ)
  redoStack : List (CMCommand σ)
  model : σ

namespace CMState

/-- A fresh manager over model state `m`. -/
def init {σ : Type} (m : σ) : CMState σ := ⟨[], [], m⟩

/-- `CommandManager.execute(command)`: run the body; on success push to
`undoStack`, clear `redoStack`, and evict the bottom entry if the stack
exceeds `maxHistory`; on a throw, rethrow with both stacks untouched. -/
def execute {σ : Type} (st : CMState σ) (c : CMCommand σ) : Except (CMState σ) (CMState σ) :=
  match c.execF st.model with
  | .error m => .error { st with model := m }
  | .ok m =>
    let u := st.undoStack ++ [c]
    .ok { undoStack := if u.length > maxHistory then u.tail else u,
          redoStack := [], model := m }

/-- `CommandManager.addToHistory(command)`: push without executing, clear
`redoStack`, enforce the capacity bound. -/
def addToHistory {σ : Type} (st : CMState σ) (c : CMCommand σ) : CMState σ :=
  let u := st.undoStack ++ [c]
  { st with undoStack := if u.length > maxHistory then u.tail else u,
            redoStack := [] }

/-- `CommandManager.undo()`: `false` on an empty stack; otherwise pop, run
`undo()`, push to `redoStack` on success; on a throw push the command back
onto `undoStack` and return `false`. -/
def undo {σ : Type} (st : CMState σ) : Bool × CMState σ :=
  match st.undoStack.getLast? with
  | none => (false, st)
  | some c =>
    let rest := st.undoStack.dropLast
    match c.undoF st.model with
    | .ok m => (true, { undoStack := rest, redoStack := st.redoStack ++ [c], model := m })
    | .error m => (false, { st with undoStack := rest ++ [c], model := m })

/-- `CommandManager.redo()`: symmetric to `undo`, re-running `execute()`. -/
def redo {σ : Type} (st : CMState σ) : Bool × CMState σ :=
  match st.redoStack.getLast? with
  | none => (false, st)
  | some c =>
    let rest := st.redoStack.dropLast
    match c.execF st.model with
    | .ok m => (true, { undoStack := st.undoStack ++ [c], redoStack := rest, model := m })
    | .error m => (false, { st with redoStack := rest ++ [c], model := m })

end CMState

/-- One call on the manager, for reasoning about arbitrary interleavings. -/
inductive CMOp (σ : Type) where
  | execute (c : CMCommand σ)
  | addToHistory (c : CMCommand σ)
  | undo
  | redo

/-- Apply one call, keeping the state a thrown `execute` leaves behind. -/
def CMState.applyOp {σ : Type} (st : CMState σ) : CMOp σ → CMState σ
  | .execute c =>
    match st.execute c with
    | .ok s => s
    | .error s => s
  | .addToHistory c => st.addToHistory c
  | .undo => (st.undo).2
  | .redo => (st.redo).2

/-- Run a sequence of calls. -/
def CMState.run {σ : Type} (st : CMState σ) (ops : List (CMOp σ)) : CMState σ :=
  ops.foldl CMState.applyOp st

/-- The last `n` elements of a list (what stepwise bottom-eviction keeps). -/
def lastN {α : Type} (n : ℕ) (l : List α) : List α := l.drop (l.length - n)

/-! ## Resize bounds (`InteractionController.calculateNewBounds`,
`ResizeHandleManager.calculateNewBounds`)

The two methods are textually identical; both are embedded by the single
function below. `handleId.includes('w')` / `includes('n')` on the
single-character tests becomes a character-containment test on the id. -/

/-- The `switch (handleId)` block: apply the pointer delta to the edges
the handle adjusts; an unknown handle id falls through unchanged. -/
def resizeSwitch (original : JRect) (handleId : String) (dx dy : ℚ) : JRect :=
  if handleId = "nw" then
    ⟨original.x + dx, original.y + dy, original.width - dx, original.height - dy⟩
  else if handleId = "n" then
    ⟨original.x, original.y + dy, original.width, original.height - dy⟩
  else if handleId = "ne" then
    ⟨original.x, original.y + dy, original.width + dx, original.height - dy⟩
  else if handleId = "e" then
    ⟨original.x, original.y, original.width + dx, original.height⟩
  else if handleId = "se" then
    ⟨original.x, original.y, original.width + dx, original.height + dy⟩
  else if handleId = "s" then
    ⟨original.x, original.y, original.width, original.height + dy⟩
  else if handleId = "sw" then
    ⟨original.x + dx, original.y, original.width - dx, original.height + dy⟩
  else if handleId = "w" then
    ⟨original.x + dx, original.y, original.width - dx, original.height⟩
  else original

/-- The minimum-size clamp: `minW = 40`, `minH = 30` are hard-coded
constants (they coincide with `Shape`'s default `minWidth`/`minHeight`,
not with a given shape's). When a west/north handle shrinks below the
minimum, the position is compensated so the opposite edge stays fixed. -/
def clampBounds (handleId : String) (b : JRect) : JRect :=
  let b2 :=
    if b.width < 40 then
      { b with x := if handleId.toList.contains 'w' then b.x - (40 - b.width) else b.x,
               width := (40 : ℚ) }
    else b
  if b2.height < 30 then
    { b2 with y := if handleId.toList.contains 'n' then b2.y - (30 - b2.height) else b2.y,
              height := (30 : ℚ) }
  else b2

/-- `calculateNewBounds(original, handleId, dx, dy)`. -/
def calculateNewBounds (original : JRect) (handleId : String) (dx dy : ℚ) : JRect :=
  clampBounds handleId (resizeSwitch original handleId dx dy)

/-- The eight resize handle ids. -/
def resizeHandleIds : List String := ["nw", "n", "ne", "e", "se", "s", "sw", "w"]

/-- The edges a handle does *not* adjust keep their absolute position:
`n`/`s` handles own the top/bottom edge, `w`/`e` handles the left/right
edge; every other edge of the result must coincide with the original. -/
def nonAdjustedEdgesFixed (handleId : String) (o r : JRect) : Prop :=
  (handleId.toList.contains 'n' = false → r.top = o.top) ∧
  (handleId.toList.contains 's' = false → r.bottom = o.bottom) ∧
  (handleId.toList.contains 'w' = false → r.left = o.left) ∧
  (handleId.toList.contains 'e' = false → r.right = o.right)

/-- `InteractionController.doResize` applies the computed bounds to the
shape's fields *directly* (not through `Shape.setSize`, so the shape's own
`minWidth`/`minHeight` are never consulted). -/
def doResizeApply (s : Shape) (b : JRect) : Shape :=
  { s with x := b.x, y := b.y, width := b.width, height := b.height }

/-! ## `InteractionController` (the interaction state machine)

The controller's gesture-relevant state and handlers. Model-state
mutations the handlers make (executing commands, moving shapes) act on the
diagram, not on the controller, and are outside this state; the embedded
step function tracks exactly the fields the mutual-exclusion claim talks
about, plus the selection set (`SelectionManager`) because `startDrag` is
gated on a non-empty shape selection. `handleKeyDown`'s Delete/undo/redo
shortcuts only touch the diagram and history, not the gesture fields, and
double-click only delegates to the external text editor; the event
alphabet below carries the gesture-relevant inputs. -/

/-- The active plugin, as the controller consults it: which tool ids have
shape definitions, which are connector types, and `validateConnection`
(already collapsed to the accepted boolean — the controller accepts both a
plain `true` and `{valid: true}`). -/
structure ICPlugin where
  shapeDefs : List String
  connectorTypes : List String
  validate : String → String → String → Bool

/-- What `target.closest(...)` finds under a canvas click. A resize handle
records its `data-handle` id and the owning group's `data-shape-id`. -/
inductive ClickTarget where
  | resizeHandleTarget (handleId : String) (shapeId : Option String)
  | shapeTarget (shapeId : String)
  | connectorTarget (connId : String)
  | emptyTarget
deriving Repr, DecidableEq

/-- The gesture-relevant input events. `shapeToolFreshId` is the generated
id of the shape a shape-tool click creates (`generateId`). -/
inductive ICEvent where
  | toolSelected (toolId : String)
  | canvasClicked (point : JPoint) (target : ClickTarget)
      (shiftKey ctrlKey : Bool) (shapeToolFreshId : String)
  | canvasMouseMove (point : JPoint) (target : ClickTarget)
  | mouseUp
  | keyEscape
deriving Repr

/-- The controller's gesture state (constructor defaults), plus the
selection manager's selected-shape set (as ids, insertion-ordered).
`resizingShape` is *not* initialized by the constructor; it first exists
once `startResize` runs, so it starts as `none` here. -/
structure ICState where
  currentTool : String
  state : String
  dragStartPoint : Option JPoint
  isDragging : Bool
  isResizing : Bool
  resizeHandle : Option String
  resizeStartBounds : Option JRect
  resizingShape : Option String
  connectionSource : Option String
  selection : List String
deriving Repr, DecidableEq

namespace ICState

/-- The controller right after construction. -/
def init : ICState where
  currentTool := "select"
  state := "idle"
  dragStartPoint := none
  isDragging := false
  isResizing := false
  resizeHandle := none
  resizeStartBounds := none
  resizingShape := none
  connectionSource := none
  selection := []

/-- `resetConnectionState()`: clears the pending source and returns the
`state` field to `idle` (DOM preview removal omitted). -/
def resetConnectionState (st : ICState) : ICState :=
  { st with connectionSource := none, state := "idle" }

/-- `resetState()`: resets `state`, the drag fields and the connection
state. It does **not** touch `isResizing`, `resizeHandle`,
`resizeStartBounds` or `resizingShape`. -/
def resetState (st : ICState) : ICState :=
  resetConnectionState { st with state := "idle", isDragging := false, dragStartPoint := none }

/-- `SelectionManager.selectShape` (non-additive): replace the selection. -/
def selectShape (st : ICState) (sid : String) : ICState :=
  { st with selection := [sid] }

/-- `SelectionManager.toggleShape`: deselect if selected, else add. -/
def toggleShape (st : ICState) (sid : String) : ICState :=
  if sid ∈ st.selection then
    { st with selection := st.selection.filter (fun x => x ≠ sid) }
  else
    { st with selection := st.selection ++ [sid] }

/-- `startResize(shape, handleId, point)`. -/
def startResize (st : ICState) (s : Shape) (handleId : String) (p : JPoint) : ICState :=
  { st with isResizing := true, state := "resizing", resizeHandle := some handleId,
            resizeStartBounds := some s.getBounds, dragStartPoint := some p,
            resizingShape := some s.id }

/-- `startDrag(point)`: gated on a non-empty shape selection. -/
def startDrag (st : ICState) (p : JPoint) : ICState :=
  if st.selection = [] then st
  else { st with isDragging := true, state := "dragging", dragStartPoint := some p }

/-- `endDrag()`. -/
def endDrag (st : ICState) : ICState :=
  { st with isDragging := false, state := "idle", dragStartPoint := none }

/-- `endResize()` (the `ResizeShapeCommand` recording acts on the history,
not on the controller). -/
def endResize (st : ICState) : ICState :=
  { st with isResizing := false, state := "idle", resizeHandle := none,
            resizeStartBounds := none, resizingShape := none }

/-- `handleSelectClick(point, target, ...)`. A resize-handle hit resolves
the shape from the handle group's `data-shape-id`, falling back to the
primary selection; if neither resolves, the click falls through to the
empty-canvas branch (a handle element is not inside a `.shape` element). -/
def handleSelectClick (shapes : JMap Shape) (st : ICState) (p : JPoint)
    (target : ClickTarget) (shiftKey ctrlKey : Bool) : ICState :=
  match target with
  | .resizeHandleTarget handleId shapeId =>
    let shape : Option Shape :=
      match shapeId with
      | some sid => mapGet shapes sid
      | none => st.selection.head?.bind (fun i => mapGet shapes i)
    (match shape with
     | some s => st.startResize s handleId p
     | none => if !shiftKey && !ctrlKey then { st with selection := [] } else st)
  | .shapeTarget sid =>
    (match mapGet shapes sid with
     | some _ =>
       let st1 := if shiftKey || ctrlKey then st.toggleShape sid else st.selectShape sid
       st1.startDrag p
     | none => st)
  | .connectorTarget _ =>
    { st with selection := [] }
  | .emptyTarget =>
    if !shiftKey && !ctrlKey then { st with selection := [] } else st

/-- `handleConnectorToolClick(point, target)`. -/
def handleConnectorToolClick (plugin : ICPlugin) (shapes : JMap Shape) (st : ICState)
    (target : ClickTarget) : ICState :=
  match target with
  | .shapeTarget sid =>
    (match mapGet shapes sid with
     | none => st
     | some _ =>
       match st.connectionSource with
       | none => { st with connectionSource := some sid, state := "connecting" }
       | some src =>
         if src ≠ sid then
           -- both the valid path (AddConnectionCommand on the diagram) and
           -- the rejected path end in resetConnectionState()
           st.resetConnectionState
         else st)
  | _ => st.resetConnectionState

/-- `handleCanvasClicked` tool dispatch. -/
def handleCanvasClicked (plugin : ICPlugin) (shapes : JMap Shape) (st : ICState)
    (p : JPoint) (target : ClickTarget) (shiftKey ctrlKey : Bool)
    (freshShapeId : String) : ICState :=
  if st.currentTool = "select" then
    handleSelectClick shapes st p target shiftKey ctrlKey
  else if st.currentTool = "delete" then
    st
  else if st.currentTool ∈ plugin.shapeDefs then
    -- handleShapeToolClick: AddShapeCommand (diagram), select the new
    -- shape, then emit TOOL_SELECTED('select'), which synchronously runs
    -- handleToolSelected: set the tool and resetState()
    resetState { st with selection := [freshShapeId], currentTool := "select" }
  else if st.currentTool ∈ plugin.connectorTypes then
    handleConnectorToolClick plugin shapes st target
  else st

/-- `handleCanvasMouseMove`: `doDrag` advances the incremental anchor;
`doResize` recomputes and applies shape bounds (a diagram mutation) and
leaves the controller's fields unchanged. -/
def handleCanvasMouseMove (st : ICState) (p : JPoint) : ICState :=
  if st.isDragging && st.state = "dragging" then
    { st with dragStartPoint := some p }
  else st

/-- `handleMouseUp`. -/
def handleMouseUp (st : ICState) : ICState :=
  let st1 := if st.isDragging && st.state = "dragging" then st.endDrag else st
  if st1.isResizing && st1.state = "resizing" then st1.endResize else st1

/-- One input event. -/
def step (plugin : ICPlugin) (shapes : JMap Shape) (st : ICState) : ICEvent → ICState
  | .toolSelected toolId => resetState { st with currentTool := toolId }
  | .canvasClicked p target shiftKey ctrlKey freshId =>
    handleCanvasClicked plugin shapes st p target shiftKey ctrlKey freshId
  | .canvasMouseMove p _ => handleCanvasMouseMove st p
  | .mouseUp => handleMouseUp st
  | .keyEscape => { st.resetState with selection := [] }

/-- A whole input sequence from a given controller state. -/
def run (plugin : ICPlugin) (shapes : JMap Shape) (st : ICState)
    (evs : List ICEvent) : ICState :=
  evs.foldl (step plugin shapes) st

/-- "At most one of {dragging, resizing, connecting} is active": the
claim's reading of the flags — `isDragging`, `isResizing`, and a pending
`connectionSource` (or the `state` field naming the gesture). -/
def MutexOK (st : ICState) : Prop :=
  ((if st.isDragging || st.state = "dragging" then 1 else 0) +
   (if st.isResizing || st.state = "resizing" then 1 else 0) +
   (if st.connectionSource.isSome || st.state = "connecting" then 1 else 0) : ℕ) ≤ 1

instance (st : ICState) : Decidable (MutexOK st) := by
  unfold MutexOK; infer_instance

end ICState

/-! ## Concrete fixtures used by the scenario claims and witnesses -/

/-- Shape A of the add-and-connect scenario: bounds `(0, 0, 100, 60)`. -/
def shapeA : Shape :=
  Shape.new "a" { id := some "a", x := some 0, y := some 0,
                  width := some 100, height := some 60 }

/-- Shape B of the add-and-connect scenario: bounds `(300, 0, 100, 60)`. -/
def shapeB : Shape :=
  Shape.new "b" { id := some "b", x := some 300, y := some 0,
                  width := some 100, height := some 60 }

/-- The connector the controller builds between A and B: both anchors
default to `auto`, no waypoints. -/
def connAB : Connection :=
  Connection.new "c1" { id := some "c1", type := some "association",
                        sourceId := some "a", targetId := some "b" }

/-- C10: in the add-and-connect scenario (A at `(0,0,100,60)`, B at
`(300,0,100,60)`, both anchors `auto`, no waypoints), `getStartPoint()` is
A's right-side connection point `(100, 30)` and `getEndPoint()` is B's
left-side connection point `(300, 30)`, each being the nearest of the four
side connection points to the other shape's center. -/
theorem autoAnchor_connect_scenario :
    connAB.getStartPoint (some shapeA) (some shapeB) =
      shapeA.getBounds.getConnectionPoint "right" ∧
    connAB.getStartPoint (some shapeA) (some shapeB) = ⟨100, 30⟩ ∧
    connAB.getEndPoint (some shapeA) (some shapeB) =
      shapeB.getBounds.getConnectionPoint "left" ∧
    connAB.getEndPoint (some shapeA) (some shapeB) = ⟨300, 30⟩ ∧
    (shapeA.getNearestConnectionPoint shapeB.getBounds.center).1 = "right" ∧
    (shapeB.getNearestConnectionPoint shapeA.getBounds.center).1 = "left" := by
  simp +decide only [Connection.getStartPoint, Connection.getEndPoint, connAB, shapeA, shapeB,
    Connection.new, Shape.new, Shape.getNearestConnectionPoint, Shape.getBounds,
    JRect.getNearestConnectionPoint, JRect.getConnectionPoint, JRect.center, JRect.centerX,
    JRect.centerY, JRect.top, JRect.bottom, JRect.left, JRect.right, JRect.distSq,
    jsStrOr, jsNumOr]
  norm_num

/-- A shape whose own `minWidth` (60) exceeds the clamp constant 40 that
`calculateNewBounds` hard-codes. The `Shape` constructor accepts any
`minWidth` option. -/
def wideMinShape : Shape :=
  Shape.new "m" { id := some "m", width := some 60, height := some 60,
                  minWidth := some 60 }

/-- C3 counterexample: the claim says the resized bounds satisfy
`width ≥ the shape's minWidth`. For a shape with `minWidth = 60` and
bounds `(0,0,60,60)` (which satisfy the shape's minimums), dragging the
east handle by `dx = -30` yields width 40 — the hard-coded constant — which
is *below* the shape's `minWidth`, and `doResize` writes those bounds
straight onto the shape's fields. -/
theorem resize_ignores_shape_min_counterexample :
    "e" ∈ resizeHandleIds ∧
    wideMinShape.minWidth ≤ wideMinShape.width ∧
    wideMinShape.minHeight ≤ wideMinShape.height ∧
    (calculateNewBounds wideMinShape.getBounds "e" (-30) 0).width < wideMinShape.minWidth ∧
    (doResizeApply wideMinShape
        (calculateNewBounds wideMinShape.getBounds "e" (-30) 0)).width <
      wideMinShape.minWidth := by
  refine ⟨by decide, ?_, ?_, ?_, ?_⟩ <;>
  · simp +decide only [wideMinShape, Shape.new, Shape.getBounds, calculateNewBounds,
      resizeSwitch, clampBounds, doResizeApply, jsNumOr, jsStrOr]
    try norm_num

/-- C3 (amended): for each of the 8 handle ids and arbitrary pointer
deltas, starting from bounds satisfying the *clamp constants* (width ≥ 40,
height ≥ 30 — the constants `calculateNewBounds` hard-codes, which equal
`Shape`'s default minimums but ignore a shape's own `minWidth`/`minHeight`),
the produced bounds again satisfy width ≥ 40 and height ≥ 30, and every
edge the handle does not adjust keeps its absolute position. -/
theorem resize_min_size_and_fixed_edges (h : String) (hmem : h ∈ resizeHandleIds)
    (o : JRect) (dx dy : ℚ) (hw : 40 ≤ o.width) (hh : 30 ≤ o.height) :
    40 ≤ (calculateNewBounds o h dx dy).width ∧
    30 ≤ (calculateNewBounds o h dx dy).height ∧
    nonAdjustedEdgesFixed h o (calculateNewBounds o h dx dy) := by
  fin_cases hmem <;>
  · simp +decide only [calculateNewBounds, resizeSwitch, clampBounds, nonAdjustedEdgesFixed]
    split_ifs <;>
    · repeat' apply And.intro
      all_goals intros
      all_goals try exact False.elim (by assumption)
      all_goals simp only [JRect.top, JRect.bottom, JRect.left, JRect.right] at *
      all_goals linarith

/-- Witness for `resize_min_size_and_fixed_edges`: the north-west handle
dragged by `(-500, -500)` from bounds `(0, 0, 100, 60)`. -/
theorem resize_min_size_and_fixed_edges_witness :
    ("nw" ∈ resizeHandleIds ∧ (40 : ℚ) ≤ 100 ∧ (30 : ℚ) ≤ 60) ∧
    (40 ≤ (calculateNewBounds ⟨0, 0, 100, 60⟩ "nw" (-500) (-500)).width ∧
     30 ≤ (calculateNewBounds ⟨0, 0, 100, 60⟩ "nw" (-500) (-500)).height ∧
     nonAdjustedEdgesFixed "nw" ⟨0, 0, 100, 60⟩
       (calculateNewBounds ⟨0, 0, 100, 60⟩ "nw" (-500) (-500))) :=
  ⟨⟨by decide, by norm_num, by norm_num⟩,
   resize_min_size_and_fixed_edges "nw" (by decide) ⟨0, 0, 100, 60⟩ (-500) (-500)
     (by norm_num) (by norm_num)⟩

/-! ## C2 fixtures: a connector plugin and a two-shape diagram -/

/-- A plugin whose only tool is the `association` connector and which
accepts every connection. -/
def icPluginConn : ICPlugin where
  shapeDefs := []
  connectorTypes := ["association"]
  validate := fun _ _ _ => true

/-- The shape collection the controller clicks against. -/
def icShapes : JMap Shape := [("a", shapeA), ("b", shapeB)]

/-- The failing input: grab shape `a`'s south-east resize handle with the
select tool, press Escape (the spec: "forces return to idle, clearing
partial gestures"), release the mouse, pick the connector tool, click
shape `b` to start connecting. -/
def failingEvents : List ICEvent :=
  [ .canvasClicked ⟨0, 0⟩ (.resizeHandleTarget "se" (some "a")) false false "g1",
    .keyEscape,
    .mouseUp,
    .toolSelected "association",
    .canvasClicked ⟨5, 5⟩ (.shapeTarget "b") false false "g2" ]

/-- C2: the code violates the mutual-exclusion invariant. `resetState()`
clears the drag and connection state but none of the resize fields, so
after Escape interrupts a resize, `isResizing` (with `resizingShape`,
`resizeHandle`, `resizeStartBounds`) stays set forever — the subsequent
mouse-up does not run `endResize` because `state` is already `idle` — and
starting a connect gesture then leaves `isResizing = true` while
`connectionSource` is pending: two gesture modes active at once, and the
new gesture started without the prior one being fully reset. -/
theorem interaction_mutual_exclusion_violation :
    (ICState.run icPluginConn icShapes ICState.init (failingEvents.take 2)).isResizing = true ∧
    (ICState.run icPluginConn icShapes ICState.init (failingEvents.take 2)).state = "idle" ∧
    (ICState.run icPluginConn icShapes ICState.init failingEvents).isResizing = true ∧
    (ICState.run icPluginConn icShapes ICState.init failingEvents).resizingShape = some "a" ∧
    (ICState.run icPluginConn icShapes ICState.init failingEvents).connectionSource = some "b" ∧
    (ICState.run icPluginConn icShapes ICState.init failingEvents).state = "connecting" ∧
    ¬ ICState.MutexOK (ICState.run icPluginConn icShapes ICState.init failingEvents) := by
  decide

/-! ## Diagram well-formedness and the endpoint-present invariant -/

/-- Both keyed collections have distinct keys and every entry is stored
under its own id — what the diagram API maintains for collections built
through it. -/
def WFDiagram (d : Diagram) : Prop :=
  (mapKeys d.shapes).Nodup ∧ (mapKeys d.connections).Nodup ∧
    (∀ p ∈ d.shapes, p.2.id = p.1) ∧ (∀ p ∈ d.connections, p.2.id = p.1)

instance (d : Diagram) : Decidable (WFDiagram d) := by
  unfold WFDiagram; infer_instance

/-- An endpoint descriptor references a shape present in the collection
(vacuous for a pending endpoint with no id). -/
def epPresent (d : Diagram) (e : Endpoint) : Prop :=
  match e.shapeId with
  | none => True
  | some sid => sid ∈ mapKeys d.shapes

instance (d : Diagram) (e : Endpoint) : Decidable (epPresent d e) := by
  unfold epPresent
  rcases e.shapeId with _ | s <;> infer_instance

/-- The spec's Diagram invariant: every stored connection has both
endpoints present in the shape collection. -/
def ConnEndpointsPresent (d : Diagram) : Prop :=
  ∀ p ∈ d.connections, epPresent d p.2.source ∧ epPresent d p.2.target

instance (d : Diagram) : Decidable (ConnEndpointsPresent d) :=
  List.decidableBAll _ _

theorem mapGet_mem {α : Type} {m : JMap α} {k : String} {v : α}
    (h : mapGet m k = some v) : (k, v) ∈ m := by
  induction m with
  | nil => simp [mapGet] at h
  | cons p t ih =>
    obtain ⟨pk, pv⟩ := p
    rw [mapGet] at h
    by_cases hpk : pk = k
    · rw [if_pos hpk] at h
      subst hpk
      obtain rfl : pv = v := Option.some.inj h
      exact List.mem_cons_self _ _
    · exact List.mem_cons_of_mem _ (ih (by rwa [if_neg hpk] at h))

theorem mem_mapKeys_iff {α : Type} {m : JMap α} {k : String} :
    k ∈ mapKeys m ↔ (mapGet m k).isSome := by
  induction m with
  | nil => simp [mapKeys, mapGet]
  | cons p t ih =>
    obtain ⟨pk, pv⟩ := p
    by_cases h : pk = k
    · subst h
      simp [mapKeys, mapGet]
    · simp only [mapKeys, List.map_cons, List.mem_cons, mapGet, if_neg h]
      constructor
      · rintro (rfl | hm)
        · exact absurd rfl h
        · exact ih.mp (by simpa [mapKeys] using hm)
      · intro hs
        exact Or.inr (by simpa [mapKeys] using ih.mpr hs)

theorem linkConnection_id (m : JMap Shape) (c : Connection) :
    (Diagram.linkConnection m c).id = c.id := by
  unfold Diagram.linkConnection
  cases hs : jsTruthyStr c.source.shapeId <;> cases ht : jsTruthyStr c.target.shapeId <;>
    simp [hs, ht]

/-- Linking changes only the `sourceShape`/`targetShape` references: the
claim-observable fields survive untouched. -/
theorem linkConnection_obs (m : JMap Shape) (c : Connection) :
    (Diagram.linkConnection m c).source = c.source ∧
    (Diagram.linkConnection m c).target = c.target ∧
    (Diagram.linkConnection m c).waypoints = c.waypoints ∧
    (Diagram.linkConnection m c).properties = c.properties ∧
    (Diagram.linkConnection m c).style = c.style ∧
    (Diagram.linkConnection m c).id = c.id := by
  unfold Diagram.linkConnection
  cases hs : jsTruthyStr c.source.shapeId <;> cases ht : jsTruthyStr c.target.shapeId <;>
    simp [hs, ht]

theorem linkConnection_refs (m : JMap Shape) (c : Connection) :
    (Diagram.linkConnection m c).sourceShape =
      (match jsTruthyStr c.source.shapeId with
       | some sid => (mapGet m sid).map Shape.id
       | none => c.sourceShape) ∧
    (Diagram.linkConnection m c).targetShape =
      (match jsTruthyStr c.target.shapeId with
       | some tid => (mapGet m tid).map Shape.id
       | none => c.targetShape) := by
  unfold Diagram.linkConnection
  cases hs : jsTruthyStr c.source.shapeId <;> cases ht : jsTruthyStr c.target.shapeId <;>
    simp [hs, ht]

/-! ## C8: endpoint resolution at `addConnection` time -/

/-- An empty diagram. -/
def emptyDiagram : Diagram := Diagram.new "d0" "t0" {}

/-- A connection whose endpoints reference shapes that exist nowhere. -/
def ghostConn : Connection :=
  Connection.new "c9" { id := some "c9", sourceId := some "ghost",
                        targetId := some "ghostT" }

/-- C8 counterexample: adding a connection whose endpoints are absent
*does* leave the stored collection violating the endpoint-present
invariant — `addConnection` stores the connection regardless, with
unresolved (`undefined`) shape references. -/
theorem addConnection_missing_endpoint_counterexample :
    (mapGet (emptyDiagram.addConnection ghostConn).connections "c9").isSome ∧
    ((emptyDiagram.addConnection ghostConn).getConnection "c9").map
        Connection.sourceShape = some none ∧
    ¬ ConnEndpointsPresent (emptyDiagram.addConnection ghostConn) := by
  decide

/-- C8 (amended): `addConnection` resolves the shape references at
insertion time — an endpoint whose id names a stored shape gets a
reference to exactly that shape, an endpoint whose id is absent gets a
null reference — but the connection is stored in either case, so the
endpoint-present invariant is guaranteed only when the endpoints are
present at insertion time; it is not enforced by rejection. -/
theorem addConnection_resolves_references (d : Diagram) (c : Connection)
    (hkm : ∀ p ∈ d.shapes, p.2.id = p.1) :
    mapGet (d.addConnection c).connections c.id =
      some (Diagram.linkConnection d.shapes { c with diagramType := d.type }) ∧
    (∀ sid, jsTruthyStr c.source.shapeId = some sid →
      (Diagram.linkConnection d.shapes { c with diagramType := d.type }).sourceShape =
        (if sid ∈ mapKeys d.shapes then some sid else none)) ∧
    (∀ sid, jsTruthyStr c.target.shapeId = some sid →
      (Diagram.linkConnection d.shapes { c with diagramType := d.type }).targetShape =
        (if sid ∈ mapKeys d.shapes then some sid else none)) := by
  refine ⟨?_, ?_, ?_⟩
  · show mapGet (mapSet d.connections _ _) c.id = _
    rw [mapGet_mapSet]
    rw [linkConnection_id]
    simp
  · intro sid hsid
    have href := (linkConnection_refs d.shapes { c with diagramType := d.type }).1
    have : jsTruthyStr ({ c with diagramType := d.type } : Connection).source.shapeId =
        some sid := hsid
    rw [this] at href
    rw [href]
    show Option.map Shape.id (mapGet d.shapes sid) = _
    by_cases hmem : sid ∈ mapKeys d.shapes
    · rw [if_pos hmem]
      obtain ⟨s, hget⟩ := Option.isSome_iff_exists.mp (mem_mapKeys_iff.mp hmem)
      rw [hget]
      have := hkm (sid, s) (mapGet_mem hget)
      simpa using this
    · rw [if_neg hmem, mapGet_eq_none_of_not_mem hmem]
      rfl
  · intro sid hsid
    have href := (linkConnection_refs d.shapes { c with diagramType := d.type }).2
    have : jsTruthyStr ({ c with diagramType := d.type } : Connection).target.shapeId =
        some sid := hsid
    rw [this] at href
    rw [href]
    show Option.map Shape.id (mapGet d.shapes sid) = _
    by_cases hmem : sid ∈ mapKeys d.shapes
    · rw [if_pos hmem]
      obtain ⟨s, hget⟩ := Option.isSome_iff_exists.mp (mem_mapKeys_iff.mp hmem)
      rw [hget]
      have := hkm (sid, s) (mapGet_mem hget)
      simpa using this
    · rw [if_neg hmem, mapGet_eq_none_of_not_mem hmem]
      rfl

/-- Witness for `addConnection_resolves_references`: an `a → ghost`
connection added to a diagram holding only shape `a` — the source resolves
to `a`, the absent target gets a null reference, and the connection is
stored anyway. -/
theorem addConnection_resolves_references_witness :
    (∀ p ∈ (emptyDiagram.addShape shapeA).shapes, p.2.id = p.1) ∧
    mapGet ((emptyDiagram.addShape shapeA).addConnection
        (Connection.new "cw" { id := some "cw", sourceId := some "a",
                               targetId := some "ghostT" })).connections "cw" =
      some (Diagram.linkConnection (emptyDiagram.addShape shapeA).shapes
        { Connection.new "cw" { id := some "cw", sourceId := some "a",
                                targetId := some "ghostT" } with
          diagramType := (emptyDiagram.addShape shapeA).type }) := by
  constructor
  · decide
  · exact (addConnection_resolves_references (emptyDiagram.addShape shapeA)
      (Connection.new "cw" { id := some "cw", sourceId := some "a",
                             targetId := some "ghostT" }) (by decide)).1

/-! ## C9: serialization round-trip -/

/-- Options of the round-trip example diagram. -/
def d9opts : DiagramOptions := { id := some "d9", type := some "uml", name := some "demo" }

/-- The round-trip example: shapes `a`, `b` and the connection `c1 : a → b`,
all added through the diagram API. -/
def d9 : Diagram :=
  (((Diagram.new "dd" "t0" d9opts).addShape shapeA).addShape shapeB).addConnection connAB

/-- `fromJSON ∘ toJSON` with the repository's factories
(`Shape.fromJSON`, `Connection.fromJSON`). -/
def d9rt : Diagram :=
  Diagram.fromJSON "f" "n" d9.toJSON (Shape.fromJSON "fs") (Connection.fromJSON "fc")

/-- C9: the round-trip loses every connection's endpoints. `toJSON` stores
`source`/`target` descriptor objects, but `Connection.fromJSON` passes the
record to a constructor that reads `options.sourceId`/`options.targetId`
(which the record does not carry), so both descriptors reset to
`{shapeId: null, anchor: 'auto'}`, `Diagram.fromJSON`'s re-linking finds
`null` ids and leaves both shape references `null`, and re-serialization
is not semantically equal to the original. The shape half does round-trip
observationally — the defect is exactly the connection endpoints. -/
theorem serialization_roundtrip_loses_endpoints :
    ((d9.getConnection "c1").map (fun c => c.source.shapeId) = some (some "a")) ∧
    ((d9.getConnection "c1").map (fun c => c.target.shapeId) = some (some "b")) ∧
    ((d9rt.getConnection "c1").map (fun c => c.source.shapeId) = some none) ∧
    ((d9rt.getConnection "c1").map (fun c => c.target.shapeId) = some none) ∧
    ((d9rt.getConnection "c1").map Connection.sourceShape = some none) ∧
    ((d9rt.getConnection "c1").map Connection.targetShape = some none) ∧
    d9rt.toJSON ≠ d9.toJSON ∧
    ShapeOptObsEq (mapGet d9rt.shapes "a") (mapGet d9.shapes "a") ∧
    ShapeOptObsEq (mapGet d9rt.shapes "b") (mapGet d9.shapes "b") := by
  decide

/-! ## C4/C5/C6: history-manager theorems -/

/-- C4: failure semantics of the history manager. (1) If `execute()`
throws inside `CommandManager.execute`, the exception propagates to the
caller with both stacks exactly as before (only the model keeps whatever
the throwing body did to it). (2) If the popped command's `undo()` throws
inside `undo()`, the command is pushed back onto `undoStack` — both stacks
end unchanged — and `false` is returned instead of throwing. (3) The same
for `execute()` throwing inside `redo()`. -/
theorem commandManager_failure_semantics {σ : Type} :
    (∀ (st : CMState σ) (c : CMCommand σ) (m : σ), c.execF st.model = .error m →
      st.execute c = .error { st with model := m }) ∧
    (∀ (st : CMState σ) (c : CMCommand σ) (m : σ), st.undoStack.getLast? = some c →
      c.undoF st.model = .error m →
      st.undo = (false, { st with model := m })) ∧
    (∀ (st : CMState σ) (c : CMCommand σ) (m : σ), st.redoStack.getLast? = some c →
      c.execF st.model = .error m →
      st.redo = (false, { st with model := m })) := by
  refine ⟨?_, ?_, ?_⟩
  · intro st c m herr
    simp [CMState.execute, herr]
  · intro st c m hlast herr
    have hne : st.undoStack ≠ [] := by
      intro h; rw [h] at hlast; simp at hlast
    have hdl : st.undoStack.dropLast ++ [c] = st.undoStack := by
      conv_rhs => rw [← List.dropLast_append_getLast hne]
      congr 1
      have := List.getLast?_eq_getLast st.undoStack hne
      rw [this] at hlast
      simpa using hlast.symm
    simp [CMState.undo, hlast, herr, hdl]
  · intro st c m hlast herr
    have hne : st.redoStack ≠ [] := by
      intro h; rw [h] at hlast; simp at hlast
    have hdl : st.redoStack.dropLast ++ [c] = st.redoStack := by
      conv_rhs => rw [← List.dropLast_append_getLast hne]
      congr 1
      have := List.getLast?_eq_getLast st.redoStack hne
      rw [this] at hlast
      simpa using hlast.symm
    simp [CMState.redo, hlast, herr, hdl]

/-- A command whose `execute` and `undo` both throw (incrementing the model
on the way, to exhibit partial mutation). -/
def badCmd : CMCommand ℕ where
  execF := fun s => .error (s + 1)
  undoF := fun s => .error (s + 1)
  descr := "bad"

/-- A command whose `execute` increments and whose `undo` decrements. -/
def goodCmd : CMCommand ℕ where
  execF := fun s => .ok (s + 1)
  undoF := fun s => .ok (s - 1)
  descr := "good"

/-- Witness for `commandManager_failure_semantics` at concrete stacks. -/
theorem commandManager_failure_semantics_witness :
    (badCmd.execF (CMState.mk [goodCmd] [goodCmd] (0 : ℕ)).model = .error 1 ∧
      (CMState.mk [goodCmd] [goodCmd] (0 : ℕ)).execute badCmd =
        .error (CMState.mk [goodCmd] [goodCmd] 1)) ∧
    ((CMState.mk [badCmd] [goodCmd] (0 : ℕ)).undoStack.getLast? = some badCmd ∧
      (CMState.mk [badCmd] [goodCmd] (0 : ℕ)).undo =
        (false, CMState.mk [badCmd] [goodCmd] 1)) ∧
    ((CMState.mk [goodCmd] [badCmd] (0 : ℕ)).redoStack.getLast? = some badCmd ∧
      (CMState.mk [goodCmd] [badCmd] (0 : ℕ)).redo =
        (false, CMState.mk [goodCmd] [badCmd] 1)) :=
  ⟨⟨rfl, commandManager_failure_semantics.1 _ badCmd 1 rfl⟩,
   ⟨rfl, commandManager_failure_semantics.2.1 _ badCmd 1 rfl rfl⟩,
   ⟨rfl, commandManager_failure_semantics.2.2 _ badCmd 1 rfl rfl⟩⟩

/-- C5: history exclusivity. (1) A successful `execute` leaves `redoStack`
empty. (2) A successful `undo` pops the top command and pushes exactly it
onto the top of `redoStack`, returning `true`. (3) `undo` on an empty
`undoStack` returns `false` and changes nothing. -/
theorem commandManager_history_exclusivity {σ : Type} :
    (∀ (st : CMState σ) (c : CMCommand σ) (st' : CMState σ), st.execute c = .ok st' →
      st'.redoStack = []) ∧
    (∀ (st : CMState σ) (c : CMCommand σ) (m : σ), st.undoStack.getLast? = some c →
      c.undoF st.model = .ok m →
      st.undo = (true, CMState.mk st.undoStack.dropLast (st.redoStack ++ [c]) m) ∧
      ((st.undo).2.redoStack.getLast? = some c ∧ (st.undo).1 = true)) ∧
    (∀ st : CMState σ, st.undoStack = [] → st.undo = (false, st)) := by
  refine ⟨?_, ?_, ?_⟩
  · intro st c st' hok
    cases hexec : c.execF st.model with
    | error m => rw [CMState.execute, hexec] at hok; simp at hok
    | ok m =>
      rw [CMState.execute, hexec] at hok
      rw [← Except.ok.inj hok]
  · intro st c m hlast hok
    have h1 : st.undo = (true, CMState.mk st.undoStack.dropLast (st.redoStack ++ [c]) m) := by
      simp [CMState.undo, hlast, hok]
    refine ⟨h1, ?_, ?_⟩ <;> rw [h1] <;> simp
  · intro st h
    simp [CMState.undo, h]

/-- Witness for `commandManager_history_exclusivity` at concrete stacks. -/
theorem commandManager_history_exclusivity_witness :
    ((CMState.mk [] [] (0 : ℕ)).execute goodCmd = .ok (CMState.mk [goodCmd] [] 1) ∧
      (CMState.mk [goodCmd] [] (1 : ℕ)).redoStack = []) ∧
    ((CMState.mk [goodCmd] [] (5 : ℕ)).undoStack.getLast? = some goodCmd ∧
      goodCmd.undoF (5 : ℕ) = .ok 4 ∧
      (CMState.mk [goodCmd] [] (5 : ℕ)).undo = (true, CMState.mk [] [goodCmd] 4) ∧
      ((CMState.mk [goodCmd] [] (5 : ℕ)).undo).2.redoStack.getLast? = some goodCmd) ∧
    ((CMState.mk [] [goodCmd] (0 : ℕ)).undo = (false, CMState.mk [] [goodCmd] 0)) :=
  ⟨⟨rfl, commandManager_history_exclusivity.1 (CMState.mk [] [] 0) goodCmd _ rfl⟩,
   ⟨rfl, rfl, (commandManager_history_exclusivity.2.1 (CMState.mk [goodCmd] [] 5)
      goodCmd 4 rfl rfl).1,
    (commandManager_history_exclusivity.2.1 (CMState.mk [goodCmd] [] 5)
      goodCmd 4 rfl rfl).2.1⟩,
   commandManager_history_exclusivity.2.2 (CMState.mk [] [goodCmd] 0) rfl⟩

theorem lastN_append_lastN {α : Type} (n : ℕ) (a b : List α) :
    lastN n (lastN n a ++ b) = lastN n (a ++ b) := by
  unfold lastN
  rw [show a.drop (a.length - n) ++ b = (a ++ b).drop (a.length - n) from
    (List.drop_append_of_le_length (by omega)).symm]
  rw [List.drop_drop]
  congr 1
  simp only [List.length_drop, List.length_append]
  omega

theorem trim_eq_lastN {α : Type} (u : List α) (c : α) (h : u.length ≤ 50) :
    (if (u ++ [c]).length > maxHistory then (u ++ [c]).tail else u ++ [c]) =
      lastN maxHistory (u ++ [c]) := by
  unfold maxHistory lastN
  by_cases hl : (u ++ [c]).length > 50
  · rw [if_pos hl, ← List.drop_one]
    congr 1
    simp only [List.length_append, List.length_cons, List.length_nil] at *
    omega
  · rw [if_neg hl]
    have : (u ++ [c]).length - 50 = 0 := by
      simp only [List.length_append, List.length_cons, List.length_nil] at *
      omega
    rw [this, List.drop_zero]

theorem lastN_length_le {α : Type} (n : ℕ) (l : List α) : (lastN n l).length ≤ n := by
  unfold lastN
  simp only [List.length_drop]
  omega

/-- Executing a list of succeeding commands from a bounded state keeps the
last 50 of the accumulated history, in order, and an empty redo stack. -/
theorem run_executes {σ : Type} (cs : List (CMCommand σ)) (st : CMState σ)
    (hok : ∀ c ∈ cs, ∀ s, (c.execF s).isOk = true)
    (hlen : st.undoStack.length ≤ 50) (hredo : st.redoStack = []) :
    (st.run (cs.map CMOp.execute)).undoStack = lastN maxHistory (st.undoStack ++ cs) ∧
    (st.run (cs.map CMOp.execute)).redoStack = [] := by
  induction cs generalizing st with
  | nil =>
    refine ⟨?_, by simpa [CMState.run] using hredo⟩
    show st.undoStack = _
    unfold lastN maxHistory
    rw [List.append_nil, show st.undoStack.length - 50 = 0 by omega, List.drop_zero]
  | cons c t ih =>
    have hcok := hok c (List.mem_cons_self _ _)
    cases hexec : c.execF st.model with
    | error m =>
      have := hcok st.model
      rw [hexec] at this
      simp [Except.isOk, Except.toBool] at this
    | ok m =>
      have hstep : st.applyOp (CMOp.execute c) =
          CMState.mk (lastN maxHistory (st.undoStack ++ [c])) [] m := by
        simp only [CMState.applyOp, CMState.execute, hexec]
        rw [← trim_eq_lastN st.undoStack c hlen]
      have hrun : st.run ((c :: t).map CMOp.execute) =
          (CMState.mk (lastN maxHistory (st.undoStack ++ [c])) [] m).run
            (t.map CMOp.execute) := by
        simp only [List.map_cons, CMState.run, List.foldl_cons, hstep]
      rw [hrun]
      have hts := ih (CMState.mk (lastN maxHistory (st.undoStack ++ [c])) [] m)
        (fun c' hc' => hok c' (List.mem_cons_of_mem _ hc'))
        (by simpa [maxHistory] using lastN_length_le maxHistory (st.undoStack ++ [c])) rfl
      rw [hts.1, hts.2]
      refine ⟨?_, rfl⟩
      show lastN maxHistory (lastN maxHistory (st.undoStack ++ [c]) ++ t) = _
      rw [lastN_append_lastN]
      simp

/-- Any single manager call preserves `|undoStack| + |redoStack| ≤ 50`. -/
theorem applyOp_capacity {σ : Type} (st : CMState σ) (op : CMOp σ)
    (h : st.undoStack.length + st.redoStack.length ≤ 50) :
    (st.applyOp op).undoStack.length + (st.applyOp op).redoStack.length ≤ 50 := by
  cases op with
  | execute c =>
    cases hexec : c.execF st.model with
    | error m => simpa [CMState.applyOp, CMState.execute, hexec] using h
    | ok m =>
      simp only [CMState.applyOp, CMState.execute, hexec]
      split_ifs with hl <;>
        simp_all [List.length_append, List.length_tail, maxHistory] <;> omega
  | addToHistory c =>
    simp only [CMState.applyOp, CMState.addToHistory]
    split_ifs with hl <;>
      simp_all [List.length_append, List.length_tail, maxHistory] <;> omega
  | undo =>
    cases hlast : st.undoStack.getLast? with
    | none => simpa [CMState.applyOp, CMState.undo, hlast] using h
    | some c =>
      have hne : st.undoStack ≠ [] := by
        intro hh; rw [hh] at hlast; simp at hlast
      cases hu : c.undoF st.model with
      | ok m =>
        simp only [CMState.applyOp, CMState.undo, hlast, hu]
        simp only [List.length_dropLast, List.length_append, List.length_cons,
          List.length_nil]
        have : st.undoStack.length ≠ 0 := Nat.pos_iff_ne_zero.mp (List.length_pos.mpr hne)
        omega
      | error m =>
        simp only [CMState.applyOp, CMState.undo, hlast, hu]
        simp only [List.length_append, List.length_dropLast, List.length_cons,
          List.length_nil]
        have : st.undoStack.length ≠ 0 := Nat.pos_iff_ne_zero.mp (List.length_pos.mpr hne)
        omega
  | redo =>
    cases hlast : st.redoStack.getLast? with
    | none => simpa [CMState.applyOp, CMState.redo, hlast] using h
    | some c =>
      have hne : st.redoStack ≠ [] := by
        intro hh; rw [hh] at hlast; simp at hlast
      cases hu : c.execF st.model with
      | ok m =>
        simp only [CMState.applyOp, CMState.redo, hlast, hu]
        simp only [List.length_dropLast, List.length_append, List.length_cons,
          List.length_nil]
        have : st.redoStack.length ≠ 0 := Nat.pos_iff_ne_zero.mp (List.length_pos.mpr hne)
        omega
      | error m =>
        simp only [CMState.applyOp, CMState.redo, hlast, hu]
        simp only [List.length_append, List.length_dropLast, List.length_cons,
          List.length_nil]
        have : st.redoStack.length ≠ 0 := Nat.pos_iff_ne_zero.mp (List.length_pos.mpr hne)
        omega

theorem run_capacity {σ : Type} (ops : List (CMOp σ)) (st : CMState σ)
    (h : st.undoStack.length + st.redoStack.length ≤ 50) :
    (st.run ops).undoStack.length + (st.run ops).redoStack.length ≤ 50 := by
  induction ops generalizing st with
  | nil => simpa [CMState.run] using h
  | cons op t ih =>
    show ((st.applyOp op).run t).undoStack.length + _ ≤ 50
    exact ih _ (applyOp_capacity st op h)

/-- A history-recording call: `execute(c)` (flag `true`) or
`addToHistory(c)` (flag `false`). -/
def recordOp {σ : Type} (p : Bool × CMCommand σ) : CMOp σ :=
  if p.1 then CMOp.execute p.2 else CMOp.addToHistory p.2

/-- Any chain of recording calls — `execute` with a succeeding command or
`addToHistory`, in any mix — from a bounded state keeps the last 50 of the
accumulated history, in order, and an empty redo stack (`addToHistory`
trims and clears `redoStack` exactly as `execute` does, it only skips the
command body). -/
theorem run_records {σ : Type} (ps : List (Bool × CMCommand σ)) (st : CMState σ)
    (hok : ∀ p ∈ ps, p.1 = true → ∀ s, (p.2.execF s).isOk = true)
    (hlen : st.undoStack.length ≤ 50) (hredo : st.redoStack = []) :
    (st.run (ps.map recordOp)).undoStack =
      lastN maxHistory (st.undoStack ++ ps.map Prod.snd) ∧
    (st.run (ps.map recordOp)).redoStack = [] := by
  induction ps generalizing st with
  | nil =>
    refine ⟨?_, by simpa [CMState.run] using hredo⟩
    show st.undoStack = _
    unfold lastN maxHistory
    rw [List.map_nil, List.append_nil, show st.undoStack.length - 50 = 0 by omega,
      List.drop_zero]
  | cons p ps ih =>
    obtain ⟨b, c⟩ := p
    have hnext : ∃ m, st.applyOp (recordOp (b, c)) =
        CMState.mk (lastN maxHistory (st.undoStack ++ [c])) [] m := by
      cases b with
      | true =>
        have hcok := hok (true, c) (List.mem_cons_self _ _) rfl st.model
        cases hexec : c.execF st.model with
        | error m =>
          rw [hexec] at hcok
          simp [Except.isOk, Except.toBool] at hcok
        | ok m =>
          refine ⟨m, ?_⟩
          show st.applyOp (CMOp.execute c) = _
          simp only [CMState.applyOp, CMState.execute, hexec]
          rw [← trim_eq_lastN st.undoStack c hlen]
      | false =>
        refine ⟨st.model, ?_⟩
        show st.applyOp (CMOp.addToHistory c) = _
        simp only [CMState.applyOp, CMState.addToHistory]
        rw [← trim_eq_lastN st.undoStack c hlen]
    obtain ⟨m, hstep⟩ := hnext
    have hrun : st.run (((b, c) :: ps).map recordOp) =
        (CMState.mk (lastN maxHistory (st.undoStack ++ [c])) [] m).run
          (ps.map recordOp) := by
      simp only [List.map_cons, CMState.run, List.foldl_cons, hstep]
    rw [hrun]
    have hts := ih (CMState.mk (lastN maxHistory (st.undoStack ++ [c])) [] m)
      (fun p hp hb => hok p (List.mem_cons_of_mem _ hp) hb)
      (by simpa [maxHistory] using lastN_length_le maxHistory (st.undoStack ++ [c])) rfl
    rw [hts.1, hts.2]
    refine ⟨?_, rfl⟩
    show lastN maxHistory (lastN maxHistory (st.undoStack ++ [c]) ++ ps.map Prod.snd) = _
    rw [lastN_append_lastN]
    simp

/-- C6: the capacity bound. (1) Executing `N > 50` succeeding commands
from a fresh manager leaves exactly the 50 most recent in `undoStack`, in
order (the oldest evicted first, from the bottom). (2) The same holds for
any `N > 50` commands recorded through `execute` or `addToHistory` in any
mix — in particular for pure `addToHistory` chains. (3) No interleaving of
`execute`, `addToHistory`, `undo` and `redo` from a fresh manager can make
`undoStack` exceed 50 entries. -/
theorem commandManager_capacity_bound {σ : Type} :
    (∀ (m : σ) (cs : List (CMCommand σ)),
      (∀ c ∈ cs, ∀ s, (c.execF s).isOk = true) → cs.length > 50 →
      ((CMState.init m).run (cs.map CMOp.execute)).undoStack = cs.drop (cs.length - 50) ∧
      ((CMState.init m).run (cs.map CMOp.execute)).undoStack.length = 50) ∧
    (∀ (m : σ) (ps : List (Bool × CMCommand σ)),
      (∀ p ∈ ps, p.1 = true → ∀ s, (p.2.execF s).isOk = true) → ps.length > 50 →
      ((CMState.init m).run (ps.map recordOp)).undoStack =
        (ps.map Prod.snd).drop (ps.length - 50) ∧
      ((CMState.init m).run (ps.map recordOp)).undoStack.length = 50) ∧
    (∀ (m : σ) (ops : List (CMOp σ)), ((CMState.init m).run ops).undoStack.length ≤ 50) := by
  refine ⟨?_, ?_, ?_⟩
  · intro m cs hok hlen
    have h := run_executes cs (CMState.init m) hok (by simp [CMState.init]) rfl
    have h1 : ((CMState.init m).run (cs.map CMOp.execute)).undoStack =
        cs.drop (cs.length - 50) := by
      rw [h.1]
      unfold lastN maxHistory
      simp [CMState.init]
    refine ⟨h1, ?_⟩
    rw [h1]
    simp only [List.length_drop]
    omega
  · intro m ps hok hlen
    have h := run_records ps (CMState.init m) hok (by simp [CMState.init]) rfl
    have h1 : ((CMState.init m).run (ps.map recordOp)).undoStack =
        (ps.map Prod.snd).drop (ps.length - 50) := by
      rw [h.1]
      unfold lastN maxHistory
      simp [CMState.init]
    refine ⟨h1, ?_⟩
    rw [h1]
    simp only [List.length_drop, List.length_map]
    omega
  · intro m ops
    have := run_capacity ops (CMState.init m) (by simp [CMState.init])
    omega

/-- A command that succeeds and leaves the model alone. -/
def noopCmd : CMCommand ℕ where
  execF := fun s => .ok s
  undoF := fun s => .ok s
  descr := "noop"

/-- Witness for `commandManager_capacity_bound`: 51 no-op commands pushed
through `execute`, and 51 recorded through `addToHistory`, each leave
exactly the last 50 on the stack. -/
theorem commandManager_capacity_bound_witness :
    (((∀ c ∈ List.replicate 51 noopCmd, ∀ s : ℕ, (c.execF s).isOk = true) ∧
      (List.replicate 51 noopCmd).length > 50) ∧
     ((CMState.init 0).run ((List.replicate 51 noopCmd).map CMOp.execute)).undoStack =
       (List.replicate 51 noopCmd).drop ((List.replicate 51 noopCmd).length - 50) ∧
     ((CMState.init 0).run
       ((List.replicate 51 noopCmd).map CMOp.execute)).undoStack.length = 50) ∧
    (((∀ p ∈ List.replicate 51 (false, noopCmd), p.1 = true →
        ∀ s : ℕ, (p.2.execF s).isOk = true) ∧
      (List.replicate 51 (false, noopCmd)).length > 50) ∧
     ((CMState.init 0).run
        ((List.replicate 51 (false, noopCmd)).map recordOp)).undoStack =
       ((List.replicate 51 (false, noopCmd)).map Prod.snd).drop
         ((List.replicate 51 (false, noopCmd)).length - 50) ∧
     ((CMState.init 0).run
        ((List.replicate 51 (false, noopCmd)).map recordOp)).undoStack.length = 50) := by
  have hok : ∀ c ∈ List.replicate 51 noopCmd, ∀ s : ℕ, (c.execF s).isOk = true := by
    intro c hc s
    rw [List.eq_of_mem_replicate hc]
    rfl
  have hok2 : ∀ p ∈ List.replicate 51 ((false, noopCmd) : Bool × CMCommand ℕ),
      p.1 = true → ∀ s : ℕ, (p.2.execF s).isOk = true := by
    intro p hp hb s
    rw [List.eq_of_mem_replicate hp]
    rfl
  exact ⟨⟨⟨hok, by decide⟩,
    commandManager_capacity_bound.1 0 (List.replicate 51 noopCmd) hok (by decide)⟩,
   ⟨⟨hok2, by decide⟩,
    commandManager_capacity_bound.2.1 0 (List.replicate 51 (false, noopCmd)) hok2
      (by decide)⟩⟩

/-! ## C1/C7: the undo-inverse law over the diagram model -/

theorem nodup_mapDelete {α : Type} (m : JMap α) (k : String)
    (h : (mapKeys m).Nodup) : (mapKeys (mapDelete m k)).Nodup := by
  induction m with
  | nil => exact h
  | cons p t ih =>
    simp only [mapKeys, List.map_cons, List.nodup_cons] at h
    by_cases hpk : p.1 = k
    · simpa [mapDelete, hpk, mapKeys] using h.2
    · obtain ⟨pk, pv⟩ := p
      simp only at hpk
      simp only [mapDelete, if_neg hpk, mapKeys, List.map_cons, List.nodup_cons]
      refine ⟨?_, ih h.2⟩
      intro hmem
      exact h.1 (by
        have : mapKeys (mapDelete t k) ⊆ mapKeys t := by
          clear hmem ih h
          induction t with
          | nil => simp [mapDelete]
          | cons q r ihr =>
            by_cases hq : q.1 = k
            · simp only [mapDelete, hq, if_pos rfl, mapKeys, List.map_cons]
              exact fun x hx => List.mem_cons_of_mem _ hx
            · simp only [mapDelete, if_neg hq, mapKeys, List.map_cons]
              intro x hx
              rcases List.mem_cons.mp hx with rfl | hx'
              · exact List.mem_cons_self _ _
              · exact List.mem_cons_of_mem _ (ihr hx')
        exact this hmem)

theorem mapGet_mapDelete_self {α : Type} (m : JMap α) (k : String)
    (h : (mapKeys m).Nodup) : mapGet (mapDelete m k) k = none := by
  induction m with
  | nil => rfl
  | cons p t ih =>
    obtain ⟨pk, pv⟩ := p
    simp only [mapKeys, List.map_cons, List.nodup_cons] at h
    by_cases hpk : pk = k
    · subst hpk
      simp only [mapDelete, if_pos rfl]
      exact mapGet_eq_none_of_not_mem (by simpa [mapKeys] using h.1)
    · simp only [mapDelete, if_neg hpk, mapGet, if_neg hpk]
      exact ih h.2

theorem removeConnection_fields (d : Diagram) (cid : String) :
    (d.removeConnection cid).connections = mapDelete d.connections cid ∧
    (d.removeConnection cid).shapes = d.shapes ∧
    (d.removeConnection cid).type = d.type := by
  unfold Diagram.removeConnection
  cases h : mapGet d.connections cid with
  | some c => exact ⟨rfl, rfl, rfl⟩
  | none => exact ⟨(mapDelete_of_not_mem h).symm, rfl, rfl⟩

theorem removeShape_fields (d : Diagram) (sid : String) :
    (d.removeShape sid).shapes = mapDelete d.shapes sid ∧
    (d.removeShape sid).connections = d.connections ∧
    (d.removeShape sid).type = d.type := by
  unfold Diagram.removeShape
  cases h : mapGet d.shapes sid with
  | some s => exact ⟨rfl, rfl, rfl⟩
  | none => exact ⟨(mapDelete_of_not_mem h).symm, rfl, rfl⟩

/-- Folding connection removals over the diagram is a fold of map
deletions on the connection collection. -/
theorem foldRemove_fields (rel : List Connection) (d : Diagram) :
    (rel.foldl (fun dd c => dd.removeConnection c.id) d).connections =
      rel.foldl (fun mm c => mapDelete mm c.id) d.connections ∧
    (rel.foldl (fun dd c => dd.removeConnection c.id) d).shapes = d.shapes ∧
    (rel.foldl (fun dd c => dd.removeConnection c.id) d).type = d.type := by
  induction rel generalizing d with
  | nil => exact ⟨rfl, rfl, rfl⟩
  | cons c t ih =>
    simp only [List.foldl_cons]
    have h1 := removeConnection_fields d c.id
    have h2 := ih (d.removeConnection c.id)
    rw [h2.1, h2.2.1, h2.2.2, h1.1, h1.2.1, h1.2.2]
    exact ⟨rfl, rfl, rfl⟩

/-- Folding `addConnection` over the diagram is a fold of `mapSet`s with
the connection linked against the (unchanging) shape collection. -/
theorem foldAdd_fields (rel : List Connection) (d : Diagram) :
    (rel.foldl (fun dd c => dd.addConnection c) d).connections =
      rel.foldl (fun mm c =>
        mapSet mm c.id (Diagram.linkConnection d.shapes { c with diagramType := d.type }))
        d.connections ∧
    (rel.foldl (fun dd c => dd.addConnection c) d).shapes = d.shapes ∧
    (rel.foldl (fun dd c => dd.addConnection c) d).type = d.type := by
  induction rel generalizing d with
  | nil => exact ⟨rfl, rfl, rfl⟩
  | cons c t ih =>
    simp only [List.foldl_cons]
    have h2 := ih (d.addConnection c)
    have hsh : (d.addConnection c).shapes = d.shapes := rfl
    have hty : (d.addConnection c).type = d.type := rfl
    have hcn : (d.addConnection c).connections =
        mapSet d.connections c.id
          (Diagram.linkConnection d.shapes { c with diagramType := d.type }) := by
      show mapSet d.connections
          (Diagram.linkConnection d.shapes { c with diagramType := d.type }).id _ = _
      rw [linkConnection_id]
    rw [h2.1, h2.2.1, h2.2.2, hsh, hty, hcn]
    exact ⟨rfl, rfl, rfl⟩

/-- Lookup after folding a batch of deletions (distinct stored keys). -/
theorem mapGet_foldDelete (rel : List Connection) (m : JMap Connection) (k : String)
    (hnd : (mapKeys m).Nodup) :
    mapGet (rel.foldl (fun mm c => mapDelete mm c.id) m) k =
      if k ∈ rel.map Connection.id then none else mapGet m k := by
  induction rel generalizing m with
  | nil => simp
  | cons c t ih =>
    simp only [List.foldl_cons, List.map_cons, List.mem_cons]
    rw [ih (mapDelete m c.id) (nodup_mapDelete m c.id hnd)]
    by_cases hk : k ∈ t.map Connection.id
    · simp [hk]
    · by_cases hck : k = c.id
      · subst hck
        simp [hk, mapGet_mapDelete_self m _ hnd]
      · have : ¬ (k = c.id ∨ k ∈ t.map Connection.id) := by
          push_neg
          exact ⟨hck, hk⟩
        simp only [if_neg hk, if_neg this]
        exact mapGet_mapDelete_ne m (fun h => hck h.symm)

/-- Lookup after folding a batch of insertions with distinct ids. -/
theorem mapGet_foldSet (rel : List Connection) (f : Connection → Connection)
    (m : JMap Connection) (k : String) (hnd : (rel.map Connection.id).Nodup) :
    mapGet (rel.foldl (fun mm c => mapSet mm c.id (f c)) m) k =
      (match rel.find? (fun c => c.id = k) with
       | some c => some (f c)
       | none => mapGet m k) := by
  induction rel generalizing m with
  | nil => simp
  | cons c t ih =>
    simp only [List.map_cons, List.nodup_cons] at hnd
    simp only [List.foldl_cons]
    rw [ih (mapSet m c.id (f c)) hnd.2]
    by_cases hck : c.id = k
    · subst hck
      have hfind : t.find? (fun c' => c'.id = c.id) = none := by
        rw [List.find?_eq_none]
        intro c' hc'
        simp only [decide_eq_true_eq]
        intro heq
        exact hnd.1 (heq ▸ List.mem_map_of_mem Connection.id hc')
      rw [hfind]
      simp [List.find?_cons, mapGet_mapSet]
    · have hfc : (List.find? (fun c' => c'.id = k) (c :: t)) =
          List.find? (fun c' => c'.id = k) t := by
        rw [List.find?_cons]
        simp [hck]
      rw [hfc]
      cases hfind : List.find? (fun c' => c'.id = k) t with
      | some c' => simp
      | none => simp [mapGet_mapSet, hck]

/-- A value stored under its own id in a nodup-keyed map is found by its
id. -/
theorem mapGet_of_mem_values (m : JMap Connection) (c : Connection)
    (hkm : ∀ p ∈ m, p.2.id = p.1) (hnd : (mapKeys m).Nodup)
    (hmem : c ∈ mapValues m) :
    mapGet m c.id = some c := by
  induction m with
  | nil => simp [mapValues] at hmem
  | cons p t ih =>
    obtain ⟨pk, pv⟩ := p
    simp only [mapKeys, List.map_cons, List.nodup_cons] at hnd
    simp only [mapValues, List.map_cons, List.mem_cons] at hmem
    rcases hmem with rfl | hmem
    · have : c.id = pk := hkm (pk, c) (List.mem_cons_self _ _)
      simp [mapGet, this]
    · have hrec := ih (fun q hq => hkm q (List.mem_cons_of_mem _ hq)) hnd.2
        (by simpa [mapValues] using hmem)
      by_cases hpk : pk = c.id
      · exfalso
        apply hnd.1
        rw [hpk]
        exact mem_mapKeys_iff.mpr (by simp [hrec])
      · simpa [mapGet, hpk] using hrec

/-- The ids of the filtered values of a keys-ok map form a sublist of the
map's keys (so they are distinct whenever the keys are). -/
theorem filterValues_ids_sublist (m : JMap Connection) (P : Connection → Bool)
    (hkm : ∀ p ∈ m, p.2.id = p.1) :
    List.Sublist (((mapValues m).filter P).map Connection.id) (mapKeys m) := by
  induction m with
  | nil => simp [mapValues, mapKeys]
  | cons p t ih =>
    obtain ⟨pk, pv⟩ := p
    have hpv : pv.id = pk := hkm (pk, pv) (List.mem_cons_self _ _)
    have ht := ih (fun q hq => hkm q (List.mem_cons_of_mem _ hq))
    simp only [mapValues, List.map_cons, mapKeys]
    by_cases hP : P pv
    · rw [List.filter_cons_of_pos hP]
      simpa [hpv] using List.Sublist.cons₂ pk ht
    · rw [List.filter_cons_of_neg hP]
      exact List.Sublist.cons pk ht

theorem execThenUndo_removeShape_core (d : Diagram) (s : Shape) (rel0 : List Connection)
    (hwf : WFDiagram d) :
    (∀ k, mapGet (execThenUndo (Cmd.removeShape s rel0) d).shapes k =
      if s.id = k then some { s with diagramType := d.type } else mapGet d.shapes k) ∧
    (∀ k, mapGet (execThenUndo (Cmd.removeShape s rel0) d).connections k =
      (match (d.getConnectionsForShape s.id).find? (fun c => c.id = k) with
       | some c => some (Diagram.linkConnection
           (mapSet (mapDelete d.shapes s.id) s.id { s with diagramType := d.type })
           { c with diagramType := d.type })
       | none => mapGet d.connections k)) := by
  obtain ⟨hndS, hndC, hkmS, hkmC⟩ := hwf
  set rel := d.getConnectionsForShape s.id with hrel
  set d1 := rel.foldl (fun dd c => dd.removeConnection c.id) d with hd1
  have hfin : execThenUndo (Cmd.removeShape s rel0) d =
      rel.foldl (fun dd c => dd.addConnection c) ((d1.removeShape s.id).addShape s) := rfl
  have hfr := foldRemove_fields rel d
  have hrs := removeShape_fields d1 s.id
  have hd2s : (d1.removeShape s.id).shapes = mapDelete d.shapes s.id := by
    rw [hrs.1, hfr.2.1]
  have hd2c : (d1.removeShape s.id).connections =
      rel.foldl (fun mm c => mapDelete mm c.id) d.connections := by
    rw [hrs.2.1, hfr.1]
  have hd2t : (d1.removeShape s.id).type = d.type := by
    rw [hrs.2.2, hfr.2.2]
  set d3 := (d1.removeShape s.id).addShape s with hd3
  have hd3s : d3.shapes = mapSet (mapDelete d.shapes s.id) s.id
      { s with diagramType := d.type } := by
    show mapSet (d1.removeShape s.id).shapes s.id
      { s with diagramType := (d1.removeShape s.id).type } = _
    rw [hd2s, hd2t]
  have hd3c : d3.connections = rel.foldl (fun mm c => mapDelete mm c.id) d.connections := hd2c
  have hd3t : d3.type = d.type := hd2t
  have hfa := foldAdd_fields rel d3
  have hrelnd : (rel.map Connection.id).Nodup := by
    refine List.Nodup.sublist ?_ hndC
    exact filterValues_ids_sublist d.connections _ hkmC
  constructor
  · intro k
    rw [hfin, hfa.2.1, hd3s]
    rw [mapGet_mapSet]
    by_cases hk : s.id = k
    · rw [if_pos hk, if_pos hk]
    · rw [if_neg hk, if_neg hk]
      exact mapGet_mapDelete_ne d.shapes hk
  · intro k
    rw [hfin, hfa.1, hd3s, hd3t, hd3c]
    rw [mapGet_foldSet rel _ _ k hrelnd]
    cases hfind : rel.find? (fun c => c.id = k) with
    | some c => rfl
    | none =>
      show mapGet (rel.foldl (fun mm c => mapDelete mm c.id) d.connections) k = _
      rw [mapGet_foldDelete rel d.connections k hndC]
      have hknotin : k ∉ rel.map Connection.id := by
        intro hmem
        obtain ⟨c, hc, hcid⟩ := List.mem_map.mp hmem
        have : rel.find? (fun c => c.id = k) ≠ none := by
          intro hnone
          rw [List.find?_eq_none] at hnone
          exact hnone c hc (by simp [hcid])
        exact this hfind
      rw [if_neg hknotin]

theorem mapGet_moveFold (ids : List String) (m : JMap Shape) (dx dy : ℚ) (k : String) :
    mapGet (ids.foldl (fun mm i => mapUpdate mm i (fun s => s.move dx dy)) m) k =
      (mapGet m k).map (fun s => { s with x := s.x + (ids.count k : ℚ) * dx,
                                          y := s.y + (ids.count k : ℚ) * dy }) := by
  induction ids generalizing m with
  | nil =>
    cases h : mapGet m k with
    | none => simp [h]
    | some s => simp [h]
  | cons i t ih =>
    simp only [List.foldl_cons]
    rw [ih (mapUpdate m i (fun s => s.move dx dy))]
    rw [mapGet_mapUpdate]
    by_cases hik : i = k
    · subst hik
      cases h : mapGet m i with
      | none => simp
      | some s =>
        simp only [if_pos rfl, h, if_true, ite_true, Option.map_some', Shape.move,
          List.count_cons_self, Nat.cast_add, Nat.cast_one, Option.some.injEq,
          Shape.mk.injEq, true_and, and_true]
        constructor <;> ring
    · rw [if_neg hik]
      rw [List.count_cons_of_ne (fun h => hik h.symm)]

/-- "The command's captured before-state matches the current model": a
predicate over `Option`-valued lookups. -/
def optionAll {α : Type} (P : α → Prop) : Option α → Prop
  | none => True
  | some a => P a

instance {α : Type} (P : α → Prop) [DecidablePred P] :
    ∀ o : Option α, Decidable (optionAll P o)
  | none => isTrue trivial
  | some a => by unfold optionAll; infer_instance

/-- Well-formedness of a command against the diagram it is about to run
on: the captured "before" state matches the current model, ids of objects
being added are fresh, and objects being removed are the stored ones — the
situation produced by the repository's interaction and panel code, which
builds each command from the live objects it mutates. For
`UpdateStyleCommand` the caller-supplied `oldStyle` is a copy of the
element's current style (agreement on `oldStyle`'s keys) and `newStyle`
touches only keys `oldStyle` has. -/
def CmdWF (c : Cmd) (d : Diagram) : Prop :=
  match c with
  | .addShape s => mapGet d.shapes s.id = none
  | .removeShape s _ => mapGet d.shapes s.id = some s
  | .moveShapes _ _ _ => True
  | .resizeShape sid oldB _ =>
    optionAll (fun s => s.x = oldB.x ∧ s.y = oldB.y ∧ s.width = oldB.width ∧
      s.height = oldB.height ∧ s.minWidth ≤ oldB.width ∧ s.minHeight ≤ oldB.height)
      (mapGet d.shapes sid)
  | .addConnection cn => mapGet d.connections cn.id = none
  | .removeConnection cn => mapGet d.connections cn.id = some cn
  | .updateProperty e p oldV _ =>
    (match e with
     | .shapeRef i =>
       optionAll (fun s => objGet s.properties p = some oldV) (mapGet d.shapes i)
     | .connRef i =>
       optionAll (fun cn => objGet cn.properties p = some oldV) (mapGet d.connections i))
  | .updateStyle sid oldS newS =>
    (objKeys oldS).Nodup ∧ (objKeys newS).Nodup ∧
    (∀ k ∈ objKeys newS, k ∈ objKeys oldS) ∧
    optionAll (fun s => ∀ k ∈ objKeys oldS, objGet s.style k = objGet oldS k)
      (mapGet d.shapes sid)

instance : ∀ (c : Cmd) (d : Diagram), Decidable (CmdWF c d)
  | .addShape s, d => inferInstanceAs (Decidable (mapGet d.shapes s.id = none))
  | .removeShape s _, d => inferInstanceAs (Decidable (mapGet d.shapes s.id = some s))
  | .moveShapes _ _ _, _ => inferInstanceAs (Decidable True)
  | .resizeShape sid oldB _, d =>
    inferInstanceAs (Decidable (optionAll _ (mapGet d.shapes sid)))
  | .addConnection cn, d => inferInstanceAs (Decidable (mapGet d.connections cn.id = none))
  | .removeConnection cn, d =>
    inferInstanceAs (Decidable (mapGet d.connections cn.id = some cn))
  | .updateProperty (.shapeRef i) p oldV _, d =>
    inferInstanceAs (Decidable (optionAll _ (mapGet d.shapes i)))
  | .updateProperty (.connRef i) p oldV _, d =>
    inferInstanceAs (Decidable (optionAll _ (mapGet d.connections i)))
  | .updateStyle sid oldS newS, d =>
    inferInstanceAs (Decidable (_ ∧ _ ∧ _ ∧ optionAll _ (mapGet d.shapes sid)))

theorem objEqv_setProperty_roundtrip (props : Obj) (p oldV newV : String)
    (h : objGet props p = some oldV) :
    ObjEqv (objSet (objSet props p newV) p oldV) props := by
  apply objEqv_of_forall
  intro k
  rw [objGet_objSet, objGet_objSet]
  by_cases hp : p = k
  · subst hp
    rw [if_pos rfl, h]
  · rw [if_neg hp, if_neg hp]

theorem objEqv_setStyle_roundtrip (st oldS newS : Obj)
    (hndOld : (objKeys oldS).Nodup) (hndNew : (objKeys newS).Nodup)
    (hsub : ∀ k ∈ objKeys newS, k ∈ objKeys oldS)
    (hagree : ∀ k ∈ objKeys oldS, objGet st k = objGet oldS k) :
    ObjEqv (objAssign (objAssign st newS) oldS) st := by
  apply objEqv_of_forall
  intro k
  rw [objGet_objAssign hndOld]
  cases hOld : objGet oldS k with
  | some v =>
    have hk : k ∈ objKeys oldS := mem_objKeys_iff.mpr (by simp [hOld])
    rw [hagree k hk, hOld]
  | none =>
    show objGet (objAssign st newS) k = objGet st k
    rw [objGet_objAssign hndNew]
    cases hNew : objGet newS k with
    | some v =>
      exfalso
      have hk : k ∈ objKeys newS := mem_objKeys_iff.mpr (by simp [hNew])
      have hks := mem_objKeys_iff.mp (hsub k hk)
      rw [hOld] at hks
      simp at hks
    | none => rfl

theorem execThenUndo_removeShape_obsEq (d : Diagram) (s : Shape) (rel0 : List Connection)
    (hwf : WFDiagram d) (hs : mapGet d.shapes s.id = some s) :
    DiagObsEq (execThenUndo (Cmd.removeShape s rel0) d) d := by
  obtain ⟨hndS, hndC, hkmS, hkmC⟩ := hwf
  have core := execThenUndo_removeShape_core d s rel0 ⟨hndS, hndC, hkmS, hkmC⟩
  refine diagObsEq_of_forall (fun k => ?_) (fun k => ?_)
  · rw [core.1 k]
    by_cases hk : s.id = k
    · rw [if_pos hk, ← hk, hs]
      exact ⟨rfl, rfl, rfl, rfl, objEqv_refl _, objEqv_refl _⟩
    · rw [if_neg hk]
      exact shapeOptObsEq_refl _
  · rw [core.2 k]
    cases hfind : (d.getConnectionsForShape s.id).find? (fun c => c.id = k) with
    | some cn =>
      have hmem := List.mem_of_find?_eq_some hfind
      have hid : cn.id = k := by simpa using List.find?_some hfind
      have hval : cn ∈ mapValues d.connections :=
        (List.mem_filter.mp hmem).1
      have hget : mapGet d.connections cn.id = some cn :=
        mapGet_of_mem_values d.connections cn hkmC hndC hval
      rw [← hid, hget]
      have hobs := linkConnection_obs
        (mapSet (mapDelete d.shapes s.id) s.id { s with diagramType := d.type })
        { cn with diagramType := d.type }
      exact ⟨hobs.1, hobs.2.1, hobs.2.2.1,
        by rw [hobs.2.2.2.1]; exact objEqv_refl _,
        by rw [hobs.2.2.2.2.1]; exact objEqv_refl _⟩
    | none => exact connOptObsEq_refl _

theorem find?_id_of_mem (rel : List Connection) (cn : Connection)
    (hnd : (rel.map Connection.id).Nodup) (hmem : cn ∈ rel) :
    rel.find? (fun c => c.id = cn.id) = some cn := by
  induction rel with
  | nil => simp at hmem
  | cons c t ih =>
    simp only [List.map_cons, List.nodup_cons] at hnd
    rcases List.mem_cons.mp hmem with rfl | hmt
    · rw [List.find?_cons]
      simp
    · have hne : ¬ (c.id = cn.id) := by
        intro heq
        exact hnd.1 (heq ▸ List.mem_map_of_mem Connection.id hmt)
      rw [List.find?_cons]
      simp only [hne, decide_False]
      exact ih hnd.2 hmt

/-- C1 (amended): for every command variant, on a well-formed diagram and
a command whose captured before-state matches the current model (`CmdWF` —
the situation the repository's interaction/panel code creates), `undo()`
right after `execute()` restores the model observationally: same shape and
connection sets, same geometry, same properties, same style. The
`UpdateStyleCommand` case additionally requires every key of `newStyle` to
occur in `oldStyle`, because `undo` *merges* `oldStyle` via
`Object.assign` instead of replacing the style record — without that
proviso the law fails (see the counterexample). -/
theorem command_undo_inverse (c : Cmd) (d : Diagram)
    (hwf : WFDiagram d) (hc : CmdWF c d) :
    DiagObsEq (execThenUndo c d) d := by
  cases c with
  | addShape s =>
    have hc' : mapGet d.shapes s.id = none := hc
    have hsh : (execThenUndo (Cmd.addShape s) d).shapes = d.shapes := by
      show ((d.addShape s).removeShape s.id).shapes = d.shapes
      rw [(removeShape_fields _ _).1]
      show mapDelete (mapSet d.shapes s.id _) s.id = d.shapes
      exact mapDelete_mapSet_fresh _ hc'
    have hcn : (execThenUndo (Cmd.addShape s) d).connections = d.connections := by
      show ((d.addShape s).removeShape s.id).connections = d.connections
      rw [(removeShape_fields _ _).2.1]
      rfl
    exact diagObsEq_of_forall (fun k => by rw [hsh]; exact shapeOptObsEq_refl _)
      (fun k => by rw [hcn]; exact connOptObsEq_refl _)
  | removeShape s rel0 =>
    exact execThenUndo_removeShape_obsEq d s rel0 hwf hc
  | moveShapes ids dx dy =>
    refine diagObsEq_of_forall (fun k => ?_) (fun k => connOptObsEq_refl _)
    show ShapeOptObsEq (mapGet (ids.foldl
      (fun mm i => mapUpdate mm i (fun s => s.move (-dx) (-dy)))
      (ids.foldl (fun mm i => mapUpdate mm i (fun s => s.move dx dy)) d.shapes)) k) _
    rw [mapGet_moveFold, mapGet_moveFold]
    cases h : mapGet d.shapes k with
    | none => exact trivial
    | some s =>
      show ShapeObsEq _ s
      exact ⟨by push_cast; ring, by push_cast; ring, rfl, rfl, objEqv_refl _, objEqv_refl _⟩
  | resizeShape sid oldB newB =>
    refine diagObsEq_of_forall (fun k => ?_) (fun k => connOptObsEq_refl _)
    show ShapeOptObsEq (mapGet (mapUpdate (mapUpdate d.shapes sid _) sid _) k) _
    simp only [mapGet_mapUpdate]
    by_cases hk : sid = k
    · subst hk
      simp only [eq_self_iff_true, ite_true]
      cases h : mapGet d.shapes sid with
      | none => exact trivial
      | some s =>
        have hcs : optionAll (fun s => s.x = oldB.x ∧ s.y = oldB.y ∧ s.width = oldB.width ∧
          s.height = oldB.height ∧ s.minWidth ≤ oldB.width ∧ s.minHeight ≤ oldB.height)
          (mapGet d.shapes sid) := hc
        rw [h] at hcs
        obtain ⟨hx, hy, hw, hh, hmw, hmh⟩ := hcs
        show ShapeObsEq _ s
        refine ⟨?_, ?_, ?_, ?_, objEqv_refl _, objEqv_refl _⟩
        · exact hx.symm
        · exact hy.symm
        · show max oldB.width s.minWidth = s.width
          rw [hw]
          exact max_eq_left hmw
        · show max oldB.height s.minHeight = s.height
          rw [hh]
          exact max_eq_left hmh
    · simp only [if_neg hk]
      exact shapeOptObsEq_refl _
  | addConnection cn =>
    have hc' : mapGet d.connections cn.id = none := hc
    have hcn : (execThenUndo (Cmd.addConnection cn) d).connections = d.connections := by
      show ((d.addConnection cn).removeConnection cn.id).connections = d.connections
      rw [(removeConnection_fields _ _).1]
      show mapDelete (mapSet d.connections
        (Diagram.linkConnection d.shapes { cn with diagramType := d.type }).id _) cn.id = _
      rw [linkConnection_id]
      exact mapDelete_mapSet_fresh _ hc'
    have hsh : (execThenUndo (Cmd.addConnection cn) d).shapes = d.shapes := by
      show ((d.addConnection cn).removeConnection cn.id).shapes = d.shapes
      rw [(removeConnection_fields _ _).2.1]
      rfl
    exact diagObsEq_of_forall (fun k => by rw [hsh]; exact shapeOptObsEq_refl _)
      (fun k => by rw [hcn]; exact connOptObsEq_refl _)
  | removeConnection cn =>
    have hc' : mapGet d.connections cn.id = some cn := hc
    have hrc := removeConnection_fields d cn.id
    refine diagObsEq_of_forall (fun k => ?_) (fun k => ?_)
    · show ShapeOptObsEq (mapGet ((d.removeConnection cn.id).addConnection cn).shapes k) _
      have hsh : ((d.removeConnection cn.id).addConnection cn).shapes = d.shapes := hrc.2.1
      rw [hsh]
      exact shapeOptObsEq_refl _
    · show ConnOptObsEq (mapGet ((d.removeConnection cn.id).addConnection cn).connections k) _
      have hstep : ((d.removeConnection cn.id).addConnection cn).connections =
          mapSet (mapDelete d.connections cn.id) cn.id
            (Diagram.linkConnection (d.removeConnection cn.id).shapes
              { cn with diagramType := (d.removeConnection cn.id).type }) := by
        show mapSet (d.removeConnection cn.id).connections
          (Diagram.linkConnection (d.removeConnection cn.id).shapes
            { cn with diagramType := (d.removeConnection cn.id).type }).id _ = _
        rw [linkConnection_id, hrc.1]
      rw [hstep, mapGet_mapSet]
      by_cases hk : cn.id = k
      · rw [if_pos hk, ← hk, hc']
        have hobs := linkConnection_obs (d.removeConnection cn.id).shapes
          { cn with diagramType := (d.removeConnection cn.id).type }
        exact ⟨hobs.1, hobs.2.1, hobs.2.2.1,
          by rw [hobs.2.2.2.1]; exact objEqv_refl _,
          by rw [hobs.2.2.2.2.1]; exact objEqv_refl _⟩
      · rw [if_neg hk]
        rw [mapGet_mapDelete_ne d.connections hk]
        exact connOptObsEq_refl _
  | updateProperty e p oldV newV =>
    cases e with
    | shapeRef i =>
      refine diagObsEq_of_forall (fun k => ?_) (fun k => connOptObsEq_refl _)
      show ShapeOptObsEq (mapGet (mapUpdate (mapUpdate d.shapes i _) i _) k) _
      simp only [mapGet_mapUpdate]
      by_cases hk : i = k
      · subst hk
        simp only [eq_self_iff_true, ite_true]
        cases h : mapGet d.shapes i with
        | none => exact trivial
        | some s =>
          have hcs : optionAll (fun s => objGet s.properties p = some oldV)
            (mapGet d.shapes i) := hc
          rw [h] at hcs
          show ShapeObsEq _ s
          exact ⟨rfl, rfl, rfl, rfl,
            objEqv_setProperty_roundtrip s.properties p oldV newV hcs, objEqv_refl _⟩
      · simp only [if_neg hk]
        exact shapeOptObsEq_refl _
    | connRef i =>
      refine diagObsEq_of_forall (fun k => shapeOptObsEq_refl _) (fun k => ?_)
      show ConnOptObsEq (mapGet (mapUpdate (mapUpdate d.connections i _) i _) k) _
      simp only [mapGet_mapUpdate]
      by_cases hk : i = k
      · subst hk
        simp only [eq_self_iff_true, ite_true]
        cases h : mapGet d.connections i with
        | none => exact trivial
        | some cn =>
          have hcs : optionAll (fun cn => objGet cn.properties p = some oldV)
            (mapGet d.connections i) := hc
          rw [h] at hcs
          show ConnObsEq _ cn
          exact ⟨rfl, rfl, rfl,
            objEqv_setProperty_roundtrip cn.properties p oldV newV hcs, objEqv_refl _⟩
      · simp only [if_neg hk]
        exact connOptObsEq_refl _
  | updateStyle sid oldS newS =>
    obtain ⟨hndOld, hndNew, hsub, hagree⟩ := hc
    refine diagObsEq_of_forall (fun k => ?_) (fun k => connOptObsEq_refl _)
    show ShapeOptObsEq (mapGet (mapUpdate (mapUpdate d.shapes sid _) sid _) k) _
    simp only [mapGet_mapUpdate]
    by_cases hk : sid = k
    · subst hk
      simp only [eq_self_iff_true, ite_true]
      cases h : mapGet d.shapes sid with
      | none => exact trivial
      | some s =>
        rw [h] at hagree
        show ShapeObsEq _ s
        exact ⟨rfl, rfl, rfl, rfl, objEqv_refl _,
          objEqv_setStyle_roundtrip s.style oldS newS hndOld hndNew hsub hagree⟩
    · simp only [if_neg hk]
      exact shapeOptObsEq_refl _

/-- C7: cascading delete and its undo. Executing `RemoveShapeCommand` on a
well-formed diagram whose stored connections reference present shapes
removes the shape and every connection referencing it; undoing that single
command restores the diagram observationally, and every re-added
connection's `sourceShape`/`targetShape` reference is re-resolved to
exactly the shape its descriptor names, present in the restored diagram. -/
theorem removeShape_cascading_undo (d : Diagram) (s : Shape)
    (hwf : WFDiagram d) (hs : mapGet d.shapes s.id = some s)
    (hep : ConnEndpointsPresent d)
    (htr : ∀ p ∈ d.connections, jsTruthyStr p.2.source.shapeId = p.2.source.shapeId ∧
      jsTruthyStr p.2.target.shapeId = p.2.target.shapeId) :
    (mapGet ((Cmd.removeShape s []).exec d).2.shapes s.id = none) ∧
    (∀ cn ∈ d.getConnectionsForShape s.id,
      mapGet ((Cmd.removeShape s []).exec d).2.connections cn.id = none) ∧
    DiagObsEq (execThenUndo (Cmd.removeShape s []) d) d ∧
    (∀ cn ∈ d.getConnectionsForShape s.id,
      ∃ cn', mapGet (execThenUndo (Cmd.removeShape s []) d).connections cn.id = some cn' ∧
        ConnObsEq cn' cn ∧
        (∀ sid, cn.source.shapeId = some sid →
          cn'.sourceShape = some sid ∧
          (mapGet (execThenUndo (Cmd.removeShape s []) d).shapes sid).isSome) ∧
        (∀ sid, cn.target.shapeId = some sid →
          cn'.targetShape = some sid ∧
          (mapGet (execThenUndo (Cmd.removeShape s []) d).shapes sid).isSome)) := by
  obtain ⟨hndS, hndC, hkmS, hkmC⟩ := hwf
  have core := execThenUndo_removeShape_core d s [] ⟨hndS, hndC, hkmS, hkmC⟩
  have hrelnd : ((d.getConnectionsForShape s.id).map Connection.id).Nodup :=
    List.Nodup.sublist (filterValues_ids_sublist d.connections _ hkmC) hndC
  refine ⟨?_, ?_, ?_, ?_⟩
  · have hshape : ((Cmd.removeShape s []).exec d).2.shapes = mapDelete d.shapes s.id := by
      show (((d.getConnectionsForShape s.id).foldl
        (fun dd c => dd.removeConnection c.id) d).removeShape s.id).shapes = _
      rw [(removeShape_fields _ _).1, (foldRemove_fields _ _).2.1]
    rw [hshape]
    exact mapGet_mapDelete_self d.shapes s.id hndS
  · intro cn hcn
    have hconn : ((Cmd.removeShape s []).exec d).2.connections =
        (d.getConnectionsForShape s.id).foldl (fun mm c => mapDelete mm c.id)
          d.connections := by
      show (((d.getConnectionsForShape s.id).foldl
        (fun dd c => dd.removeConnection c.id) d).removeShape s.id).connections = _
      rw [(removeShape_fields _ _).2.1, (foldRemove_fields _ _).1]
    rw [hconn, mapGet_foldDelete _ _ _ hndC,
      if_pos (List.mem_map_of_mem Connection.id hcn)]
  · exact execThenUndo_removeShape_obsEq d s [] ⟨hndS, hndC, hkmS, hkmC⟩ hs
  · intro cn hcn
    obtain ⟨p, hp, hpeq⟩ := List.mem_map.mp ((List.mem_filter.mp hcn).1)
    have hepc := hep p hp
    have htrc := htr p hp
    rw [hpeq] at hepc htrc
    have hfind := find?_id_of_mem (d.getConnectionsForShape s.id) cn hrelnd hcn
    have hlook := core.2 cn.id
    rw [hfind] at hlook
    refine ⟨Diagram.linkConnection
        (mapSet (mapDelete d.shapes s.id) s.id { s with diagramType := d.type })
        { cn with diagramType := d.type }, hlook, ?_, ?_, ?_⟩
    · have hobs := linkConnection_obs
        (mapSet (mapDelete d.shapes s.id) s.id { s with diagramType := d.type })
        { cn with diagramType := d.type }
      exact ⟨hobs.1, hobs.2.1, hobs.2.2.1,
        by rw [hobs.2.2.2.1]; exact objEqv_refl _,
        by rw [hobs.2.2.2.2.1]; exact objEqv_refl _⟩
    · intro sid hsid
      have hrefs := (linkConnection_refs
        (mapSet (mapDelete d.shapes s.id) s.id { s with diagramType := d.type })
        { cn with diagramType := d.type }).1
      have htrv : jsTruthyStr ({ cn with diagramType := d.type } : Connection).source.shapeId
          = some sid := by
        show jsTruthyStr cn.source.shapeId = some sid
        rw [htrc.1, hsid]
      rw [htrv] at hrefs
      have hsget : ∃ sh : Shape, mapGet (mapSet (mapDelete d.shapes s.id) s.id
          { s with diagramType := d.type }) sid = some sh ∧ sh.id = sid := by
        rw [mapGet_mapSet]
        by_cases hsk : s.id = sid
        · exact ⟨{ s with diagramType := d.type }, by rw [if_pos hsk], hsk⟩
        · rw [if_neg hsk, mapGet_mapDelete_ne d.shapes hsk]
          have hepc' : sid ∈ mapKeys d.shapes := by
            have h2 := hepc.1
            unfold epPresent at h2
            rw [hsid] at h2
            exact h2
          obtain ⟨sh, hsh⟩ := Option.isSome_iff_exists.mp (mem_mapKeys_iff.mp hepc')
          exact ⟨sh, hsh, hkmS (sid, sh) (mapGet_mem hsh)⟩
      obtain ⟨sh, hsh, hshid⟩ := hsget
      constructor
      · rw [hrefs]
        show Option.map Shape.id (mapGet (mapSet (mapDelete d.shapes s.id) s.id
          { s with diagramType := d.type }) sid) = some sid
        rw [hsh]
        simp [hshid]
      · rw [core.1 sid]
        by_cases hsk : s.id = sid
        · rw [if_pos hsk]
          rfl
        · rw [if_neg hsk]
          have h2 := hepc.1
          unfold epPresent at h2
          rw [hsid] at h2
          exact mem_mapKeys_iff.mp h2
    · intro sid hsid
      have hrefs := (linkConnection_refs
        (mapSet (mapDelete d.shapes s.id) s.id { s with diagramType := d.type })
        { cn with diagramType := d.type }).2
      have htrv : jsTruthyStr ({ cn with diagramType := d.type } : Connection).target.shapeId
          = some sid := by
        show jsTruthyStr cn.target.shapeId = some sid
        rw [htrc.2, hsid]
      rw [htrv] at hrefs
      have hsget : ∃ sh : Shape, mapGet (mapSet (mapDelete d.shapes s.id) s.id
          { s with diagramType := d.type }) sid = some sh ∧ sh.id = sid := by
        rw [mapGet_mapSet]
        by_cases hsk : s.id = sid
        · exact ⟨{ s with diagramType := d.type }, by rw [if_pos hsk], hsk⟩
        · rw [if_neg hsk, mapGet_mapDelete_ne d.shapes hsk]
          have hepc' : sid ∈ mapKeys d.shapes := by
            have h2 := hepc.2
            unfold epPresent at h2
            rw [hsid] at h2
            exact h2
          obtain ⟨sh, hsh⟩ := Option.isSome_iff_exists.mp (mem_mapKeys_iff.mp hepc')
          exact ⟨sh, hsh, hkmS (sid, sh) (mapGet_mem hsh)⟩
      obtain ⟨sh, hsh, hshid⟩ := hsget
      constructor
      · rw [hrefs]
        show Option.map Shape.id (mapGet (mapSet (mapDelete d.shapes s.id) s.id
          { s with diagramType := d.type }) sid) = some sid
        rw [hsh]
        simp [hshid]
      · rw [core.1 sid]
        by_cases hsk : s.id = sid
        · rw [if_pos hsk]
          rfl
        · rw [if_neg hsk]
          have h2 := hepc.2
          unfold epPresent at h2
          rw [hsid] at h2
          exact mem_mapKeys_iff.mp h2

/-- A one-shape diagram whose shape `a` carries the constructor's default
style record. -/
def styleDiagram : Diagram := (Diagram.new "dS" "t0" {}).addShape shapeA

/-- An `UpdateStyleCommand` with a *well-formed* capture — `oldStyle` is a
verbatim copy of the element's current style — whose `newStyle` introduces
a key (`opacity`) the style does not yet have. -/
def opacityCmd : Cmd :=
  Cmd.updateStyle "a"
    [("fill", "#FFFFFF"), ("stroke", "#333333"), ("strokeWidth", "1.5")]
    [("opacity", "0.5")]

/-- C1 counterexample: `UpdateStyleCommand.undo()` merges `oldStyle` into
the current style (`Object.assign`) rather than replacing it, so a key
introduced by `newStyle` survives the undo: after execute-then-undo the
shape's style still carries `opacity = 0.5`, which the original state did
not have — the state is not observationally equal to the original, even
though `oldStyle` was captured correctly. -/
theorem updateStyle_undo_not_inverse :
    ((styleDiagram.getShape "a").map Shape.style =
      some [("fill", "#FFFFFF"), ("stroke", "#333333"), ("strokeWidth", "1.5")]) ∧
    (((execThenUndo opacityCmd styleDiagram).getShape "a").map
        (fun s => objGet s.style "opacity") = some (some "0.5")) ∧
    ((styleDiagram.getShape "a").map (fun s => objGet s.style "opacity") = some none) ∧
    ¬ DiagObsEq (execThenUndo opacityCmd styleDiagram) styleDiagram := by
  decide

/-- An `UpdatePropertyCommand` renaming shape `a` with a correct capture
of the old value. -/
def renameCmd : Cmd := Cmd.updateProperty (ElemRef.shapeRef "a") "name" "" "Hello"

/-- Witness for `command_undo_inverse`: renaming shape `a`, undone,
restores the diagram. -/
theorem command_undo_inverse_witness :
    (WFDiagram styleDiagram ∧ CmdWF renameCmd styleDiagram) ∧
    DiagObsEq (execThenUndo renameCmd styleDiagram) styleDiagram :=
  ⟨⟨by decide, by decide⟩,
   command_undo_inverse renameCmd styleDiagram (by decide) (by decide)⟩

/-- The value stored for shape `a` inside `d9` (the diagram stamps its
type onto added shapes). -/
def shapeAinD9 : Shape := { shapeA with diagramType := "uml" }

/-- Witness for `removeShape_cascading_undo`: removing shape `a` from the
two-shape diagram with the `a → b` connection, then undoing. -/
theorem removeShape_cascading_undo_witness :
    (WFDiagram d9 ∧ mapGet d9.shapes shapeAinD9.id = some shapeAinD9 ∧
      ConnEndpointsPresent d9 ∧
      (∀ p ∈ d9.connections, jsTruthyStr p.2.source.shapeId = p.2.source.shapeId ∧
        jsTruthyStr p.2.target.shapeId = p.2.target.shapeId)) ∧
    DiagObsEq (execThenUndo (Cmd.removeShape shapeAinD9 []) d9) d9 :=
  ⟨⟨by decide, by decide, by decide, by decide⟩,
   (removeShape_cascading_undo d9 shapeAinD9 (by decide) (by decide) (by decide)
     (by decide)).2.2.1⟩
